import Mathlib

/-!
Shallow embedding of the trajectory-reader core of the dynsf repository.

The embedding covers:
* `dsf/trajectory_reader/lammpstrj_trajectory_reader.py` — the pure-python
  LAMMPS dump parser (namespace `Dynsf.Lammpstrj`),
* `dsf/trajectory_reader/molfile_trajectory_reader.py` — the box builder
  `_to_box` and the availability probe (namespace `Dynsf.Molfile`),
* `dsf/trajectory_reader/xtc_trajectory_reader.py` — the availability probe
  (namespace `Dynsf.Xtc`),
* a small heap model of the numpy allocation behaviour of
  `lammpstrj_trajectory_reader.next` (namespace `Dynsf.HeapModel`).

Python floats are modelled as rationals (all arithmetic performed by the
reader on the claim-relevant paths is exact); the molfile box builder, which
uses trigonometry, is modelled over the reals.
-/

namespace Dynsf

/-- Failure outcomes of the readers.  Each constructor names one raise site of
the source; the spec's error taxonomy (section 7) maps onto them as follows:
`stopIteration` is clean exhaustion (the `raise StopIteration` on end of
stream while awaiting a header); `headerParse` is the
`IOError("TRJ_reader: Failed to read/parse TRJ frame header")` on an
unrecognized non-blank line — the spec's `FormatError`; `malformedBox` is the
`IOError('TRJ_reader: Malformed box bounds ...')` — also a `FormatError`;
`missingColumns` is the `RuntimeError('TRJ file must contain at least
atom-id, x, y, and z ...')` — also a `FormatError`; `dataParse` is the
`ValueError`/`IndexError` raised when a value line fails to parse or when the
atom-data block is ragged/short (in particular when the stream ends
mid-frame, numpy indexing of the ragged array fails) — the spec's
`TruncationError`; `inconsistentFrame` is the `AssertionError` of the two
`assert` statements in `_get_next` — the spec's `ConsistencyError`;
`incompleteHeader` models the `NameError` that would follow an `ITEM: ATOMS`
line not preceded by all of TIMESTEP / NUMBER OF ATOMS / BOX BOUNDS;
`missingAttribute` models the `AttributeError` a call of `_get_next` before
any `_get_first` would raise (it reads `self._natoms` etc.) — unreachable,
since `_first_called` starts `False` and no statement of the class ever sets
it to `True`. -/
inductive Err where
  | stopIteration
  | headerParse
  | malformedBox
  | missingColumns
  | dataParse
  | inconsistentFrame
  | incompleteHeader
  | missingAttribute
deriving DecidableEq, Repr

/-- Equality of fallible results is decidable (used to evaluate the model
on concrete inputs). -/
instance {ε α : Type} [DecidableEq ε] [DecidableEq α] :
    DecidableEq (Except ε α) := fun a b =>
  match a, b with
  | .error x, .error y =>
    if h : x = y then isTrue (h ▸ rfl)
    else isFalse (fun hc => h (Except.error.inj hc))
  | .ok x, .ok y =>
    if h : x = y then isTrue (h ▸ rfl)
    else isFalse (fun hc => h (Except.ok.inj hc))
  | .error _, .ok _ => isFalse Except.noConfusion
  | .ok _, .error _ => isFalse Except.noConfusion

/-- One line of a LAMMPS dump file, pre-split at the lexical level.  The
`item…` constructors are the lines matched by the reader's regexp
`ITEM: (TIMESTEP|NUMBER OF ATOMS|BOX BOUNDS|ATOMS) ?(.*)`, with the
column-name payload kept for `ATOMS`; `nums` is a line all of whose
whitespace-separated fields parse as numbers (floats modelled as ℚ, and an
integer-valued entry stands for an integer literal); `blank` is a
whitespace-only line; `other` is any other non-empty line.  End of file is
represented by running out of list elements, mirroring Python's `readline`
returning the empty string. -/
inductive TrjLine where
  | itemTimestep
  | itemNatoms
  | itemBoxBounds
  | itemAtoms (cols : List String)
  | nums (vals : List ℚ)
  | blank
  | other
deriving DecidableEq, Repr

/-- A 3-component value (one column of the `(3, n)` coordinate arrays). -/
abbrev V3 : Type := ℚ × ℚ × ℚ

/-- Componentwise product of two 3-vectors: models the numpy broadcast
`xs * _x_factor` with `xs.shape == (3, n)` and `_x_factor.shape == (3, 1)`,
restricted to one column. -/
def vmul (v f : V3) : V3 := (v.1 * f.1, v.2.1 * f.2.1, v.2.2 * f.2.2)

/-- Scalar multiple of a 3-vector: models `factor * array` on one column. -/
def vscale (c : ℚ) (v : V3) : V3 := (c * v.1, c * v.2.1, c * v.2.2)

/-- A 3×3 matrix given by its nine entries, row major: the simulation box. -/
structure Mat3 (α : Type) where
  a00 : α
  a01 : α
  a02 : α
  a10 : α
  a11 : α
  a12 : α
  a20 : α
  a21 : α
  a22 : α
deriving DecidableEq, Repr

/-- The diagonal of a box matrix, as used by `self._box.diagonal()`. -/
def mdiag (m : Mat3 ℚ) : V3 := (m.a00, m.a11, m.a22)

/-- Scalar multiple of a box matrix: models `self.x_factor * box`. -/
def mscale (c : ℚ) (m : Mat3 ℚ) : Mat3 ℚ :=
  ⟨c * m.a00, c * m.a01, c * m.a02,
   c * m.a10, c * m.a11, c * m.a12,
   c * m.a20, c * m.a21, c * m.a22⟩

/-- Conversion of a parsed number to a machine integer: models
`np.asarray(data[:, id], dtype=int)`, which truncates toward zero. -/
def ratTruncInt (q : ℚ) : ℤ := Int.tdiv q.num q.den

namespace Lammpstrj

/-- Models lines 79–91 of `lammpstrj_trajectory_reader.py`: from the three
`BOX BOUNDS` rows, build `np.diag(x[:,1] - x[:,0])`; when the rows form a
`(3, 3)` array, additionally place the tilt entries
`box[1,0] = x[0,2]`, `box[2,0] = x[1,2]`, `box[2,1] = x[2,2]`; a uniform
`(3, m)` shape with `m` neither 2 nor 3 raises the `Malformed box bounds`
error; ragged or too-short rows make the numpy indexing itself fail. -/
def buildBox (rows : List (List ℚ)) : Except Err (Mat3 ℚ) :=
  match rows with
  | [r0, r1, r2] =>
    if r0.length = 3 ∧ r1.length = 3 ∧ r2.length = 3 then
      .ok ⟨r0.getD 1 0 - r0.getD 0 0, 0, 0,
           r0.getD 2 0, r1.getD 1 0 - r1.getD 0 0, 0,
           r1.getD 2 0, r2.getD 2 0, r2.getD 1 0 - r2.getD 0 0⟩
    else if r0.length = 2 ∧ r1.length = 2 ∧ r2.length = 2 then
      .ok ⟨r0.getD 1 0 - r0.getD 0 0, 0, 0,
           0, r1.getD 1 0 - r1.getD 0 0, 0,
           0, 0, r2.getD 1 0 - r2.getD 0 0⟩
    else if r0.length = r1.length ∧ r1.length = r2.length ∧ 2 ≤ r0.length then
      .error .malformedBox
    else .error .dataParse
  | _ => .error .dataParse

/-- Models `map(float, self._fh.readline().split())`: a numeric line yields
its fields, a blank line yields `[]` (as does end of file, where `readline`
returns the empty string, consuming nothing), and any other line makes
`float` raise. -/
def readFloats : List TrjLine → Except Err (List ℚ × List TrjLine)
  | [] => .ok ([], [])
  | .nums vs :: rest => .ok (vs, rest)
  | .blank :: rest => .ok ([], rest)
  | _ :: _ => .error .dataParse

/-- Models `int(self._fh.readline())`: the line must consist of a single
integer; anything else (including end of file) makes `int` raise. -/
def readInt : List TrjLine → Except Err (ℤ × List TrjLine)
  | .nums vs :: rest =>
    match vs with
    | [q] => if q.den = 1 then .ok (q.num, rest) else .error .dataParse
    | _ => .error .dataParse
  | _ => .error .dataParse

/-- Partially decoded header, accumulated by the `_read_frame_header` loop. -/
structure HdrAcc where
  step : Option ℤ
  natoms : Option ℤ
  box : Option (Mat3 ℚ)
deriving DecidableEq, Repr

/-- A fully decoded frame header: timestep, atom count, box, column names. -/
structure Hdr where
  step : ℤ
  natoms : ℤ
  box : Mat3 ℚ
  cols : List String
deriving DecidableEq, Repr

/-- Fuelled body of `_read_frame_header` (lines 66–97): loop over lines,
skipping blanks, failing on an unrecognized non-blank line, reading the
value lines that follow each recognized `ITEM:` line, and returning when
`ITEM: ATOMS` is reached.  End of stream while awaiting a header closes the
file and raises `StopIteration`.  The fuel only bounds the number of loop
iterations; `read_frame_header` below supplies `lines.length`, which every
branch strictly consumes, so fuel exhaustion coincides with end of input. -/
def readHeaderAux : ℕ → HdrAcc → List TrjLine → Except Err (Hdr × List TrjLine)
  | 0, _, _ => .error .stopIteration
  | _ + 1, _, [] => .error .stopIteration
  | fuel + 1, acc, line :: rest =>
    match line with
    | .blank => readHeaderAux fuel acc rest
    | .nums _ => .error .headerParse
    | .other => .error .headerParse
    | .itemTimestep =>
      match readInt rest with
      | .error e => .error e
      | .ok (n, rest1) => readHeaderAux fuel ⟨some n, acc.natoms, acc.box⟩ rest1
    | .itemNatoms =>
      match readInt rest with
      | .error e => .error e
      | .ok (n, rest1) => readHeaderAux fuel ⟨acc.step, some n, acc.box⟩ rest1
    | .itemBoxBounds =>
      match readFloats rest with
      | .error e => .error e
      | .ok (r0, rest0) =>
        match readFloats rest0 with
        | .error e => .error e
        | .ok (r1, rest1) =>
          match readFloats rest1 with
          | .error e => .error e
          | .ok (r2, rest2) =>
            match buildBox [r0, r1, r2] with
            | .error e => .error e
            | .ok b => readHeaderAux fuel ⟨acc.step, acc.natoms, some b⟩ rest2
    | .itemAtoms cs =>
      match acc.step, acc.natoms, acc.box with
      | some s, some n, some b => .ok (⟨s, n, b, cs⟩, rest)
      | _, _, _ => .error .incompleteHeader

/-- `_read_frame_header`: run the header loop on the remaining lines. -/
def read_frame_header (lines : List TrjLine) : Except Err (Hdr × List TrjLine) :=
  readHeaderAux lines.length ⟨none, none, none⟩ lines

/-- The column names the reader looks for. -/
def sId : String := "id"

def sXu : String := "xu"

def sYu : String := "yu"

def sZu : String := "zu"

def sX : String := "x"

def sY : String := "y"

def sZ : String := "z"

def sXs : String := "xs"

def sYs : String := "ys"

def sZs : String := "zs"

def sVx : String := "vx"

def sVy : String := "vy"

def sVz : String := "vz"

def sType : String := "type"

/-- `_all_in_cols`: every requested key occurs among the column names. -/
def all_in_cols (cols keys : List String) : Bool :=
  keys.all (fun k => cols.contains k)

/-- `cols.index(k)`: position of the first occurrence of a column name. -/
def colIndex (cols : List String) (k : String) : ℕ := cols.indexOf k

/-- The coordinate-column choice made on the first frame: the three column
positions, and — in scaled mode — the captured multiplicative factor of the
closure `self._x_map = lambda xs: xs * _x_factor` (`none` means no map). -/
structure XSel where
  xI : ℕ × ℕ × ℕ
  xMap : Option V3
deriving DecidableEq, Repr

/-- Models lines 111–124 of `_get_first`: pick the coordinate triple by
priority unwrapped > wrapped > scaled (each together with `id`); in scaled
mode capture `_x_factor = self._box.diagonal()`; with no complete triple,
raise the `RuntimeError` (`missingColumns`). -/
def choose_x (cols : List String) (box : Mat3 ℚ) : Except Err XSel :=
  if all_in_cols cols [sId, sXu, sYu, sZu] then
    .ok ⟨(colIndex cols sXu, colIndex cols sYu, colIndex cols sZu), none⟩
  else if all_in_cols cols [sId, sX, sY, sZ] then
    .ok ⟨(colIndex cols sX, colIndex cols sY, colIndex cols sZ), none⟩
  else if all_in_cols cols [sId, sXs, sYs, sZs] then
    .ok ⟨(colIndex cols sXs, colIndex cols sYs, colIndex cols sZs), some (mdiag box)⟩
  else .error .missingColumns

/-- Models lines 128–131 of `_get_first`: the optional velocity columns. -/
def choose_v (cols : List String) : Option (ℕ × ℕ × ℕ) :=
  if all_in_cols cols [sVx, sVy, sVz] then
    some (colIndex cols sVx, colIndex cols sVy, colIndex cols sVz)
  else none

/-- Models lines 133–136 of `_get_first`: the optional type column. -/
def choose_type (cols : List String) : Option ℕ :=
  if cols.contains sType then some (colIndex cols sType) else none

/-- Read `N` atom-data lines (`for _ in range(N)`), each through
`map(float, readline().split())`. -/
def readRows : ℕ → List TrjLine → Except Err (List (List ℚ) × List TrjLine)
  | 0, lines => .ok ([], lines)
  | n + 1, lines =>
    match readFloats lines with
    | .error e => .error e
    | .ok (r, rest) =>
      match readRows n rest with
      | .error e => .error e
      | .ok (rs, rest1) => .ok (r :: rs, rest1)

/-- Models numpy column extraction `data[:, i]` on `data = array(rows)`:
defined exactly when the rows form a proper (nonempty) 2-D array — all rows
of one common length with `i` inside it; on a ragged block `array` produces a
1-D object array and the indexing raises, as it does when `i` is out of
bounds. -/
def colAt (rows : List (List ℚ)) (i : ℕ) : Except Err (List ℚ) :=
  match rows with
  | [] => .error .dataParse
  | r :: rs =>
    if rs.all (fun s => s.length = r.length) ∧ i < r.length then
      .ok ((r :: rs).map (fun s => s.getD i 0))
    else .error .dataParse

/-- The three entries of one data row selected by a column-index triple:
one atom's coordinate (or velocity) 3-vector. -/
def tripleAt (ijk : ℕ × ℕ × ℕ) (r : List ℚ) : V3 :=
  (r.getD ijk.1 0, r.getD ijk.2.1 0, r.getD ijk.2.2 0)

/-- Models `data[:, (i, j, k)].transpose()`: the three coordinate columns,
presented row-wise as one 3-vector per atom line. -/
def colTriple (rows : List (List ℚ)) (ijk : ℕ × ℕ × ℕ) : Except Err (List V3) :=
  match rows with
  | [] => .error .dataParse
  | r :: rs =>
    if rs.all (fun s => s.length = r.length) ∧
        ijk.1 < r.length ∧ ijk.2.1 < r.length ∧ ijk.2.2 < r.length then
      .ok ((r :: rs).map (tripleAt ijk))
    else .error .dataParse

/-- The id column as machine integers:
`np.asarray(data[:, self._id_I], dtype=int)`. -/
def idColumn (rows : List (List ℚ)) (idI : ℕ) : Except Err (List ℤ) :=
  match colAt rows idI with
  | .error e => .error e
  | .ok c => .ok (c.map ratTruncInt)

/-- Application of the optional scaled-coordinate closure `self._x_map` to
one column: multiply componentwise by the captured factor. -/
def applyXMap (m : Option V3) (v : V3) : V3 :=
  match m with
  | none => v
  | some f => vmul v f

/-- Models the fancy-indexed assignment `buf[:, I] = vals` on one axis:
positions listed in `I` are overwritten left to right with the corresponding
values (numpy writes the last value on a repeated index; out-of-range
positions cannot occur on the paths the theorems speak about). -/
def scatter {α : Type} (buf : List α) : List ℕ → List α → List α
  | [], _ => buf
  | _ :: _, [] => buf
  | i :: is, v :: vs => scatter (buf.set i v) is vs

/-- Models `np.argsort(I)`: the permutation of `0 .. n-1` listing the
positions of `I` in ascending value order.  It is realised here with a stable
insertion sort; `np.argsort`'s default quicksort agrees with it whenever the
values are distinct, which is what the theorems below hypothesise. -/
def argsort (l : List ℤ) : List ℕ :=
  List.insertionSort (fun i j => l.getD i 0 ≤ l.getD j 0) (List.range l.length)

/-- Models lines 139–141 of `_get_first`:
`I[np.argsort(I)] = arange(len(I))`, i.e. the list `P` with
`P[argsort(I)[k]] = k` — each identifier's position receives its rank. -/
def invArgsort (l : List ℤ) : List ℕ :=
  scatter (List.replicate l.length 0) (argsort l) (List.range l.length)

/-- The per-trajectory reader state established by `_get_first` and updated
by `_get_next` (the `self._…` attributes of the Python object). -/
structure LoadedState where
  natoms : ℤ
  step : ℤ
  cols : List String
  box : Mat3 ℚ
  xI : ℕ × ℕ × ℕ
  idI : ℕ
  vI : Option (ℕ × ℕ × ℕ)
  typeI : Option ℕ
  xMap : Option V3
  xbuf : List V3
  vbuf : Option (List V3)
deriving DecidableEq, Repr

/-- The part of `_get_first` (lines 138–148) that follows the reading of the
`N` data lines: compute the identifier ranks, allocate the zero buffers and
scatter the (possibly scaled-transformed) coordinate and velocity columns
into them. -/
def build_first (hdr : Hdr) (sel : XSel) (vI : Option (ℕ × ℕ × ℕ))
    (rows : List (List ℚ)) : Except Err LoadedState :=
  let idI := colIndex hdr.cols sId
  match idColumn rows idI with
  | .error e => .error e
  | .ok ids =>
    match colTriple rows sel.xI with
    | .error e => .error e
    | .ok xs =>
      let P := invArgsort ids
      let n := hdr.natoms.toNat
      let xbuf := scatter (List.replicate n ((0 : ℚ), (0 : ℚ), (0 : ℚ))) P
        (xs.map (applyXMap sel.xMap))
      match vI with
      | none =>
        .ok ⟨hdr.natoms, hdr.step, hdr.cols, hdr.box, sel.xI, idI, none,
             choose_type hdr.cols, sel.xMap, xbuf, none⟩
      | some vIdx =>
        match colTriple rows vIdx with
        | .error e => .error e
        | .ok vs =>
          let vbuf := scatter (List.replicate n ((0 : ℚ), (0 : ℚ), (0 : ℚ))) P vs
          .ok ⟨hdr.natoms, hdr.step, hdr.cols, hdr.box, sel.xI, idI, some vIdx,
               choose_type hdr.cols, sel.xMap, xbuf, some vbuf⟩

/-- `_get_first` (lines 99–148): read and decode the first frame's header,
choose the coordinate columns, read `N` data lines and build the state. -/
def get_first (lines : List TrjLine) : Except Err (LoadedState × List TrjLine) :=
  match read_frame_header lines with
  | .error e => .error e
  | .ok (hdr, rest) =>
    match choose_x hdr.cols hdr.box with
    | .error e => .error e
    | .ok sel =>
      match readRows hdr.natoms.toNat rest with
      | .error e => .error e
      | .ok (rows, rest1) =>
        match build_first hdr sel (choose_v hdr.cols) rows with
        | .error e => .error e
        | .ok st => .ok (st, rest1)

/-- The part of `_get_next` (lines 156–166) that follows the reading of the
`N` data lines: destination columns are `id - 1`, the coordinate columns are
passed through the closure captured at open time (`self._x_map`), and the
existing buffers are overwritten in place.  NOTE: in the program this whole
path is dead code — `next()` dispatches on `self._first_called`, which
`__init__` sets to `False` and which no statement of this class ever sets to
`True` (unlike the xtc reader, whose `_get_first` sets it), so `_get_next`
is never executed. -/
def build_next (st : LoadedState) (hdr : Hdr) (rows : List (List ℚ)) :
    Except Err LoadedState :=
  match idColumn rows st.idI with
  | .error e => .error e
  | .ok ids =>
    match colTriple rows st.xI with
    | .error e => .error e
    | .ok xs =>
      let I := ids.map (fun i => (i - 1).toNat)
      let xbuf := scatter st.xbuf I (xs.map (applyXMap st.xMap))
      match st.vI with
      | none =>
        .ok { st with step := hdr.step, box := hdr.box, xbuf := xbuf }
      | some vIdx =>
        match colTriple rows vIdx with
        | .error e => .error e
        | .ok vs =>
          let vbuf := scatter (st.vbuf.getD []) I vs
          .ok { st with step := hdr.step, box := hdr.box, xbuf := xbuf,
                        vbuf := some vbuf }

/-- `_get_next` (lines 150–166): decode the next header, `assert` that the
atom count and the column names are unchanged from the first frame, then
read the `N` data lines and overwrite the buffers.  Dead code in the
program: `_first_called` is never set to `True`, so `next()` never takes the
branch that calls this method. -/
def get_next (st : LoadedState) (lines : List TrjLine) :
    Except Err (LoadedState × List TrjLine) :=
  match read_frame_header lines with
  | .error e => .error e
  | .ok (hdr, rest) =>
    if st.natoms = hdr.natoms then
      if st.cols = hdr.cols then
        match readRows hdr.natoms.toNat rest with
        | .error e => .error e
        | .ok (rows, rest1) =>
          match build_next st hdr rows with
          | .error e => .error e
          | .ok st1 => .ok (st1, rest1)
      else .error .inconsistentFrame
    else .error .inconsistentFrame

/-- The value `next()` hands to the caller (the `res` dict, lines 182–196). -/
structure Frame where
  index : ℕ
  N : ℤ
  box : Mat3 ℚ
  time : ℚ
  x : List V3
  v : Option (List V3)
deriving DecidableEq, Repr

/-- The reader object: unit factors fixed at construction, the not yet
consumed part of the file, the open flag, the `itertools.count(1)` counter,
the `self._first_called` flag, and — once a frame has been read — the
`self._…` attributes assigned by `_get_first` (`none` before the first
call).  `firstCalled` mirrors the source exactly: `__init__` sets it to
`False` and no statement of the class ever assigns it again. -/
structure Reader where
  xFactor : ℚ
  tFactor : ℚ
  lines : List TrjLine
  opened : Bool
  counter : ℕ
  firstCalled : Bool
  st : Option LoadedState
deriving DecidableEq, Repr

/-- `__init__`: a freshly constructed reader (`self._first_called = False`). -/
def openReader (lines : List TrjLine) (xFactor tFactor : ℚ) : Reader :=
  ⟨xFactor, tFactor, lines, true, 1, false, none⟩

/-- `self.v_factor = x_factor / t_factor`. -/
def vFactor (r : Reader) : ℚ := r.xFactor / r.tFactor

/-- Lines 182–196 of `next()`: build the returned frame from the updated
state — every array is produced afresh by the scalar multiplications
`x_factor * self._box.copy('F')`, `x_factor * self._x` and
`v_factor * self._v` — and advance the frame counter.  The `_first_called`
flag is left untouched, as in the source. -/
def emit (r : Reader) (st : LoadedState) (rest : List TrjLine) : Frame × Reader :=
  (⟨r.counter, st.natoms, mscale r.xFactor st.box, r.tFactor * (st.step : ℚ),
    st.xbuf.map (vscale r.xFactor), st.vbuf.map (fun vb => vb.map (vscale (vFactor r)))⟩,
   { r with lines := rest, counter := r.counter + 1, st := some st })

/-- `next()` (lines 175–197): raise `StopIteration` once closed; then
dispatch on `self._first_called` — `_get_next` when it is `True`,
`_get_first` otherwise — and emit the frame.  Because `_first_called` starts
`False` and is never assigned afterwards, the `_get_first` branch runs on
every call of the program and the `_get_next` branch is unreachable (were it
entered before any `_get_first`, reading `self._natoms` would raise an
`AttributeError`, modelled by `missingAttribute`). -/
def next (r : Reader) : Except Err (Frame × Reader) :=
  if r.opened then
    if r.firstCalled then
      match r.st with
      | none => .error .missingAttribute
      | some st0 =>
        match get_next st0 r.lines with
        | .error e => .error e
        | .ok (st, rest) => .ok (emit r st rest)
    else
      match get_first r.lines with
      | .error e => .error e
      | .ok (st, rest) => .ok (emit r st rest)
  else .error .stopIteration

/-- The integer identifier carried by one data row: the `id` column parsed
as a machine integer. -/
def keyOf (idI : ℕ) (r : List ℚ) : ℤ := ratTruncInt (r.getD idI 0)

/-- The data rows reordered into ascending identifier order — the order the
spec calls "sorted-identifier order".  (Specification vocabulary for the
reindexing theorems, not a function of the source.) -/
def sortRowsById (idI : ℕ) (rows : List (List ℚ)) : List (List ℚ) :=
  List.insertionSort (fun r s => keyOf idI r ≤ keyOf idI s) rows

end Lammpstrj

/-- The aspects of the host a capability probe can depend on: whether a VMD
molfile plugin directory was located, and whether a gromacs `libgmx` shared
library was found. -/
structure HostEnv where
  molfilePluginDirFound : Bool
  libgmxFound : Bool
deriving DecidableEq, Repr

/-- `lammpstrj_trajectory_reader.reader_available` (lines 30–32): the pure
python reader is always available. -/
def Lammpstrj.reader_available (_e : HostEnv) : Bool := true

namespace Molfile

/-- `molfile_trajectory_reader.reader_available` (lines 43–45):
`molfile_plugin_dir() is not None`. -/
def reader_available (e : HostEnv) : Bool := e.molfilePluginDirFound

end Molfile

namespace Xtc

/-- `xtc_trajectory_reader.reader_available` (lines 74–82): the body is
`return False` — the probe is disabled pending gromacs-5 support, with the
actual check `libgmx is not None` left commented out. -/
def reader_available (_e : HostEnv) : Bool := false

end Xtc

/-- Modelled from the spec: the runtime prerequisites of each backend
(section 4.1 — "true iff this backend's runtime prerequisites (e.g., a
required external library) are present on the host").  The pure-python
LAMMPS reader needs nothing; the molfile reader needs the located plugin
directory; the xtc reader needs `libgmx`. -/
def lammpstrjPrereqs (_e : HostEnv) : Bool := true

/-- Modelled from the spec: prerequisite of the plugin-backed reader. -/
def molfilePrereqs (e : HostEnv) : Bool := e.molfilePluginDirFound

/-- Modelled from the spec: prerequisite of the library-call-backed reader. -/
def xtcPrereqs (e : HostEnv) : Bool := e.libgmxFound

namespace Molfile

/-- `deg2rad = pi / 180.0`. -/
noncomputable def deg2rad : ℝ := Real.pi / 180

/-- `molfile_trajectory_reader._to_box` (lines 156–161), verbatim:
row 0 is `(A, 0, 0)`, row 1 is `(B cos(deg2rad γ), B, 0)`, row 2 is
`(C cos(deg2rad β), C cos(deg2rad α), C)`. -/
noncomputable def to_box (A B C alpha beta gamma : ℝ) : Mat3 ℝ :=
  ⟨A, 0, 0,
   B * Real.cos (deg2rad * gamma), B, 0,
   C * Real.cos (deg2rad * beta), C * Real.cos (deg2rad * alpha), C⟩

/-- Modelled from the spec (section 4.2): the standard crystallographic
construction of a triclinic cell from lengths `A B C` and angles
`alpha beta gamma` in degrees — first vector along the first axis with
length `A`; second vector in the first-second plane at angle `gamma`;
third vector completing the cell using angles `alpha` and `beta`. -/
noncomputable def standard_cell_box (A B C alpha beta gamma : ℝ) : Mat3 ℝ :=
  let ca := Real.cos (deg2rad * alpha)
  let cb := Real.cos (deg2rad * beta)
  let cg := Real.cos (deg2rad * gamma)
  let sg := Real.sin (deg2rad * gamma)
  ⟨A, 0, 0,
   B * cg, B * sg, 0,
   C * cb, C * ((ca - cb * cg) / sg),
   C * Real.sqrt (1 - cb ^ 2 - ((ca - cb * cg) / sg) ^ 2)⟩

end Molfile

namespace HeapModel

/-!
A small store model of the numpy allocation behaviour of
`lammpstrj_trajectory_reader.next` (lines 175–197) and of the in-place
buffer writes of `_get_next` (lines 161–166): array objects live on a heap
and are designated by references; `factor * array` and `array.copy('F')`
allocate fresh cells, while `buf[:, I] = values` overwrites an existing
cell.  Array contents are flattened to plain lists of rationals, which is
all the aliasing claims need.
-/

/-- A heap of array objects. -/
abbrev Heap : Type := List (List ℚ)

/-- Allocate a fresh array object holding `v`. -/
def halloc (h : Heap) (v : List ℚ) : Heap × ℕ := (h ++ [v], h.length)

/-- Read the array object a reference designates. -/
def hget (h : Heap) (r : ℕ) : List ℚ := h.getD r []

/-- Overwrite an array object in place. -/
def hset (h : Heap) (r : ℕ) (v : List ℚ) : Heap := h.set r v

/-- `factor * array`, producing a fresh value. -/
def scaleArr (c : ℚ) (a : List ℚ) : List ℚ := a.map (fun q => c * q)

/-- The array references a returned frame dict holds. -/
structure FrameR where
  box : ℕ
  x : ℕ
  v : Option ℕ
deriving DecidableEq, Repr

/-- Lines 182–196 of `next()` at the allocation level: the frame's `box` is
`x_factor * self._box.copy('F')` (one fresh cell for the copy, one for the
product), its `x` is `x_factor * self._x` (fresh), and its `v` — when the
reader has velocities — is `v_factor * self._v` (fresh). -/
def emitFrame (h : Heap) (xf vf : ℚ) (br xr : ℕ) (vr : Option ℕ) :
    Heap × FrameR :=
  let p0 := halloc h (hget h br)
  let p1 := halloc p0.1 (scaleArr xf (hget p0.1 p0.2))
  let p2 := halloc p1.1 (scaleArr xf (hget p1.1 xr))
  match vr with
  | none => (p2.1, ⟨p1.2, p2.2, none⟩)
  | some rv =>
    let p3 := halloc p2.1 (scaleArr vf (hget p2.1 rv))
    (p3.1, ⟨p1.2, p2.2, some p3.2⟩)

/-- `_get_next` at the allocation level: `self._box = box` rebinds the
attribute to a freshly parsed array, while `self._x[:, I] = …` and
`self._v[:, I] = …` overwrite the existing buffer cells in place.  Returns
the new heap and the new box reference. -/
def advanceBuffers (h : Heap) (xr : ℕ) (vr : Option ℕ)
    (newbox nx nv : List ℚ) : Heap × ℕ :=
  let p := halloc h newbox
  let h1 := hset p.1 xr nx
  let h2 := match vr with
    | none => h1
    | some rv => hset h1 rv nv
  (h2, p.2)

end HeapModel

open Lammpstrj

/-!  Concrete inputs used by the witness and counterexample theorems. -/

/-- An orthogonal box with diagonal extents `(10, 10, 10)`. -/
def wBox : Mat3 ℚ := ⟨10, 0, 0, 0, 10, 0, 0, 0, 10⟩

/-- An orthogonal box with diagonal extents `(20, 20, 20)`. -/
def wBox20 : Mat3 ℚ := ⟨20, 0, 0, 0, 20, 0, 0, 0, 20⟩

def wHdr1 : Hdr := ⟨0, 3, wBox, [sId, sX, sY, sZ]⟩

def wSel1 : XSel := ⟨(1, 2, 3), none⟩

/-- Three data lines in scrambled identifier order `[3, 1, 2]`. -/
def wRows1 : List (List ℚ) := [[3, 30, 31, 32], [1, 11, 12, 13], [2, 21, 22, 23]]

def wSt1 : LoadedState :=
  ⟨3, 0, [sId, sX, sY, sZ], wBox, (1, 2, 3), 0, none, none, none,
   [(11, 12, 13), (21, 22, 23), (30, 31, 32)], none⟩

/-- A two-frame trajectory whose second frame's data lines carry the
scrambled, non-consecutive identifiers `9, 1, 5`. -/
def wLinesC2 : List TrjLine :=
  [.itemTimestep, .nums [0], .itemNatoms, .nums [3], .itemBoxBounds,
   .nums [0, 10], .nums [0, 10], .nums [0, 10], .itemAtoms [sId, sX, sY, sZ],
   .nums [1, 10, 11, 12], .nums [2, 20, 21, 22], .nums [3, 30, 31, 32],
   .itemTimestep, .nums [1], .itemNatoms, .nums [3], .itemBoxBounds,
   .nums [0, 10], .nums [0, 10], .nums [0, 10], .itemAtoms [sId, sX, sY, sZ],
   .nums [9, 900, 901, 902], .nums [1, 100, 101, 102], .nums [5, 500, 501, 502]]

/-- The first two frames a reader over `wLinesC2` produces (unit factors 1). -/
def c2Run : Option (Frame × Frame) :=
  match Lammpstrj.next (openReader wLinesC2 1 1) with
  | .ok (f1, r1) =>
    match Lammpstrj.next r1 with
    | .ok (f2, _) => some (f1, f2)
    | .error _ => none
  | .error _ => none

/-- A two-frame trajectory whose first frame declares 2 atoms and whose
second frame declares 1 atom. -/
def wLinesC7 : List TrjLine :=
  [.itemTimestep, .nums [0], .itemNatoms, .nums [2], .itemBoxBounds,
   .nums [0, 10], .nums [0, 10], .nums [0, 10], .itemAtoms [sId, sX, sY, sZ],
   .nums [1, 10, 11, 12], .nums [2, 20, 21, 22],
   .itemTimestep, .nums [1], .itemNatoms, .nums [1], .itemBoxBounds,
   .nums [0, 10], .nums [0, 10], .nums [0, 10], .itemAtoms [sId, sX, sY, sZ],
   .nums [1, 100, 101, 102]]

/-- The first two frames a reader over `wLinesC7` produces (unit factors 1). -/
def c7Run : Option (Frame × Frame) :=
  match Lammpstrj.next (openReader wLinesC7 1 1) with
  | .ok (f1, r1) =>
    match Lammpstrj.next r1 with
    | .ok (f2, _) => some (f1, f2)
    | .error _ => none
  | .error _ => none

def wColsU : List String := [sId, sXu, sYu, sZu, sX, sY, sZ]

def wColsW : List String := [sId, sX, sY, sZ]

def wColsS : List String := [sId, sXs, sYs, sZs]

def wColsBad : List String := [sId, sX, sY]

def wLines3 : List TrjLine :=
  [.itemTimestep, .nums [0], .itemNatoms, .nums [1], .itemBoxBounds,
   .nums [0, 1], .nums [0, 1], .nums [0, 1], .itemAtoms wColsBad]

/-- The unit box, as decoded from the bounds rows of `wLines3`. -/
def wBox1 : Mat3 ℚ := ⟨1, 0, 0, 0, 1, 0, 0, 0, 1⟩

def wHdr3 : Hdr := ⟨0, 1, wBox1, wColsBad⟩

def wHdr4 : Hdr := ⟨0, 1, wBox, wColsS⟩

def wSel4 : XSel := ⟨(1, 2, 3), some (mdiag wBox)⟩

def wRows4 : List (List ℚ) := [[1, 1/2, 1/2, 1/2]]

def wSt4 : LoadedState :=
  ⟨1, 0, wColsS, wBox, (1, 2, 3), 0, none, none, some (10, 10, 10),
   [(5, 5, 5)], none⟩

def wHdr4b : Hdr := ⟨1, 1, wBox20, wColsS⟩

def wSt4out : LoadedState :=
  ⟨1, 1, wColsS, wBox20, (1, 2, 3), 0, none, none, some (10, 10, 10),
   [(5, 5, 5)], none⟩

/-- A two-frame scaled-coordinate trajectory: frame 1 has box extents
`(10,10,10)`, frame 2 declares box extents `(20,20,20)`; both hold one atom
at fractional position `(1/2, 1/2, 1/2)`. -/
def c4Lines : List TrjLine :=
  [.itemTimestep, .nums [0], .itemNatoms, .nums [1], .itemBoxBounds,
   .nums [0, 10], .nums [0, 10], .nums [0, 10], .itemAtoms wColsS,
   .nums [1, 1/2, 1/2, 1/2],
   .itemTimestep, .nums [1], .itemNatoms, .nums [1], .itemBoxBounds,
   .nums [0, 20], .nums [0, 20], .nums [0, 20], .itemAtoms wColsS,
   .nums [1, 1/2, 1/2, 1/2]]

/-- The first two frames a reader over `c4Lines` produces (unit factors 1). -/
def c4Run : Option (Frame × Frame) :=
  match Lammpstrj.next (openReader c4Lines 1 1) with
  | .ok (f1, r1) =>
    match Lammpstrj.next r1 with
    | .ok (f2, _) => some (f1, f2)
    | .error _ => none
  | .error _ => none

def wR8a : Reader := ⟨1, 1, [TrjLine.blank], true, 1, false, none⟩

def wHdr8b : Hdr := ⟨7, 2, wBox, [sId, sX, sY, sZ]⟩

def wData8b : List (List ℚ) := [[1, 1, 1, 1]]

def wLines8b : List TrjLine :=
  [.itemTimestep, .nums [7], .itemNatoms, .nums [2], .itemBoxBounds,
   .nums [0, 10], .nums [0, 10], .nums [0, 10], .itemAtoms [sId, sX, sY, sZ],
   .nums [1, 1, 1, 1]]

def wR8b : Reader := ⟨1, 1, wLines8b, true, 1, false, none⟩

/-- The selection `choose_x` makes for the header of `wLines8b`. -/
def wSel8 : XSel := ⟨(1, 2, 3), none⟩

/-- A host on which both external libraries are present. -/
def wEnv : HostEnv := ⟨true, true⟩

/-- The identifier list `[1, 2, …, n]`. -/
def consecutiveIds (n : ℕ) : List ℤ :=
  List.map (fun i : ℕ => (i : ℤ) + 1) (List.range n)

def wHeap : HeapModel.Heap := [[1], [2], [3]]

def wH1 : HeapModel.Heap := [[1], [2], [3], [1], [2], [4], [9]]

def wF1 : HeapModel.FrameR := ⟨4, 5, some 6⟩

def wH2 : HeapModel.Heap := [[1], [8], [9], [1], [2], [4], [9], [7]]

def wH3 : HeapModel.Heap :=
  [[1], [8], [9], [1], [2], [4], [9], [7], [7], [14], [16], [27]]

def wF2 : HeapModel.FrameR := ⟨9, 10, some 11⟩

/-! ## List and scatter lemmas -/

theorem getD_set_eq {α : Type} (l : List α) (i : ℕ) (a d : α) (h : i < l.length) :
    (l.set i a).getD i d = a := by
  simp [List.getD_eq_getElem?_getD, List.getElem?_set_self h]

theorem getD_set_ne {α : Type} (l : List α) {i j : ℕ} (h : i ≠ j) (a d : α) :
    (l.set i a).getD j d = l.getD j d := by
  simp [List.getD_eq_getElem?_getD, List.getElem?_set_ne h]

theorem length_scatter {α : Type} :
    ∀ (is : List ℕ) (vs : List α) (buf : List α),
      (scatter buf is vs).length = buf.length
  | [], _, _ => by rw [scatter]
  | _ :: _, [], _ => by rw [scatter]
  | i :: is, v :: vs, buf => by
    rw [scatter, length_scatter is vs, List.length_set]

theorem getD_scatter_not_mem {α : Type} (d : α) :
    ∀ (is : List ℕ) (vs : List α) (buf : List α) (i : ℕ), i ∉ is →
      (scatter buf is vs).getD i d = buf.getD i d
  | [], _, _, _, _ => by rw [scatter]
  | _ :: _, [], _, _, _ => by rw [scatter]
  | j :: is, v :: vs, buf, i, h => by
    have h1 : i ∉ is := fun hm => h (List.mem_cons_of_mem _ hm)
    have h2 : j ≠ i := fun e => h (e ▸ List.mem_cons_self _ _)
    rw [scatter, getD_scatter_not_mem d is vs _ i h1, getD_set_ne _ h2]

theorem getD_scatter_nodup {α : Type} (d : α) :
    ∀ (is : List ℕ) (vs : List α) (buf : List α) (j : ℕ),
      is.Nodup → j < is.length → j < vs.length → is.getD j 0 < buf.length →
      (scatter buf is vs).getD (is.getD j 0) d = vs.getD j d
  | [], _, _, j, _, hj, _, _ => absurd hj (by simp)
  | _ :: _, [], _, j, _, _, hj, _ => absurd hj (by simp)
  | i :: is, v :: vs, buf, 0, hnd, _, _, hlt => by
    simp only [List.getD_cons_zero] at hlt ⊢
    have hni : i ∉ is := (List.nodup_cons.mp hnd).1
    rw [scatter, getD_scatter_not_mem d is vs _ i hni, getD_set_eq _ _ _ _ hlt]
  | i :: is, v :: vs, buf, j + 1, hnd, hj, hvj, hlt => by
    simp only [List.getD_cons_succ] at hlt ⊢
    rw [scatter]
    exact getD_scatter_nodup d is vs _ j (List.nodup_cons.mp hnd).2
      (by simpa using hj) (by simpa using hvj) (by simpa using hlt)

/-! ## argsort and its inverse -/

theorem argsort_perm (l : List ℤ) : (argsort l).Perm (List.range l.length) :=
  List.perm_insertionSort _ _

theorem argsort_length (l : List ℤ) : (argsort l).length = l.length := by
  simpa using (argsort_perm l).length_eq

theorem argsort_getD_lt (l : List ℤ) {k : ℕ} (hk : k < l.length) :
    (argsort l).getD k 0 < l.length := by
  have hm : (argsort l).getD k 0 ∈ argsort l := by
    rw [List.getD_eq_getElem _ _ (by rw [argsort_length]; exact hk)]
    exact List.getElem_mem _
  simpa using List.mem_range.mp ((argsort_perm l).subset hm)

theorem argsort_surj (l : List ℤ) {i : ℕ} (hi : i < l.length) :
    ∃ k, k < l.length ∧ (argsort l).getD k 0 = i := by
  have hm : i ∈ argsort l := ((argsort_perm l).mem_iff).mpr (List.mem_range.mpr hi)
  obtain ⟨k, hk, he⟩ := List.mem_iff_getElem.mp hm
  refine ⟨k, ?_, ?_⟩
  · rw [← argsort_length l]; exact hk
  · rw [List.getD_eq_getElem _ _ hk]; exact he

theorem length_invArgsort (l : List ℤ) : (invArgsort l).length = l.length := by
  simp [invArgsort, length_scatter]

theorem invArgsort_getD_argsort (l : List ℤ) {k : ℕ} (hk : k < l.length) :
    (invArgsort l).getD ((argsort l).getD k 0) 0 = k := by
  have hnd : (argsort l).Nodup := ((argsort_perm l).nodup_iff).mpr (List.nodup_range _)
  have h1 : k < (argsort l).length := by rw [argsort_length]; exact hk
  have h2 : k < (List.range l.length).length := by simpa using hk
  have h3 : (argsort l).getD k 0 < (List.replicate l.length (0 : ℕ)).length := by
    simpa using argsort_getD_lt l hk
  have h4 := getD_scatter_nodup 0 (argsort l) (List.range l.length)
    (List.replicate l.length 0) k hnd h1 h2 h3
  rw [invArgsort, h4, List.getD_eq_getElem _ _ h2, List.getElem_range]

theorem invArgsort_getD_lt (l : List ℤ) {i : ℕ} (hi : i < l.length) :
    (invArgsort l).getD i 0 < l.length := by
  obtain ⟨k, hk, he⟩ := argsort_surj l hi
  rw [← he, invArgsort_getD_argsort l hk]
  exact hk

theorem invArgsort_nodup (l : List ℤ) : (invArgsort l).Nodup := by
  rw [List.nodup_iff_injective_get]
  intro a b hab
  have hg : ∀ c : Fin (invArgsort l).length,
      (invArgsort l).get c = (invArgsort l).getD (c : ℕ) 0 := fun c => by
    rw [List.get_eq_getElem, List.getD_eq_getElem _ _ c.2]
  have ha : (a : ℕ) < l.length := lt_of_lt_of_eq a.2 (length_invArgsort l)
  have hb : (b : ℕ) < l.length := lt_of_lt_of_eq b.2 (length_invArgsort l)
  obtain ⟨k1, hk1, he1⟩ := argsort_surj l ha
  obtain ⟨k2, hk2, he2⟩ := argsort_surj l hb
  rw [hg a, hg b] at hab
  have e1 : (invArgsort l).getD (a : ℕ) 0 = k1 := by
    rw [← he1, invArgsort_getD_argsort l hk1]
  have e2 : (invArgsort l).getD (b : ℕ) 0 = k2 := by
    rw [← he2, invArgsort_getD_argsort l hk2]
  have hk : k1 = k2 := by rw [← e1, ← e2, hab]
  apply Fin.ext
  rw [← he1, ← he2, hk]

theorem scatter_invArgsort_getD {α : Type} (d : α) (ids : List ℤ) (vals : List α)
    (hv : vals.length = ids.length) {k : ℕ} (hk : k < ids.length) :
    (scatter (List.replicate ids.length d) (invArgsort ids) vals).getD k d
      = vals.getD ((argsort ids).getD k 0) d := by
  have hjlt : (argsort ids).getD k 0 < ids.length := argsort_getD_lt ids hk
  have h1 : (invArgsort ids).Nodup := invArgsort_nodup ids
  have h2 : (argsort ids).getD k 0 < (invArgsort ids).length := by
    rw [length_invArgsort]; exact hjlt
  have h3 : (argsort ids).getD k 0 < vals.length := by rw [hv]; exact hjlt
  have h4 : (invArgsort ids).getD ((argsort ids).getD k 0) 0
      < (List.replicate ids.length d).length := by
    simpa using invArgsort_getD_lt ids hjlt
  have h5 := getD_scatter_nodup d (invArgsort ids) vals
    (List.replicate ids.length d) ((argsort ids).getD k 0) h1 h2 h3 h4
  rwa [invArgsort_getD_argsort ids hk] at h5

/-! ## Insertion sort and index sorting -/

theorem orderedInsert_congr {α : Type} {r r' : α → α → Prop}
    [DecidableRel r] [DecidableRel r'] (hrr : ∀ a b, r a b ↔ r' a b) (a : α) :
    ∀ l : List α, List.orderedInsert r a l = List.orderedInsert r' a l
  | [] => rfl
  | b :: l => by
    by_cases h : r a b
    · rw [List.orderedInsert, if_pos h, List.orderedInsert, if_pos ((hrr a b).mp h)]
    · rw [List.orderedInsert, if_neg h, List.orderedInsert,
        if_neg (fun h' => h ((hrr a b).mpr h')), orderedInsert_congr hrr a l]

theorem insertionSort_congr {α : Type} {r r' : α → α → Prop}
    [DecidableRel r] [DecidableRel r'] (hrr : ∀ a b, r a b ↔ r' a b) :
    ∀ l : List α, List.insertionSort r l = List.insertionSort r' l
  | [] => rfl
  | a :: l => by
    rw [List.insertionSort, List.insertionSort, insertionSort_congr hrr l,
      orderedInsert_congr hrr a]

theorem orderedInsert_map {α β : Type} (f : α → β) (r : β → β → Prop)
    [DecidableRel r] [DecidableRel fun x y => r (f x) (f y)] (a : α) :
    ∀ l : List α,
      List.orderedInsert r (f a) (l.map f)
        = (List.orderedInsert (fun x y => r (f x) (f y)) a l).map f
  | [] => rfl
  | b :: l => by
    by_cases h : r (f a) (f b)
    · rw [List.map_cons, List.orderedInsert, if_pos h, List.orderedInsert,
        if_pos h, List.map_cons, List.map_cons]
    · rw [List.map_cons, List.orderedInsert, if_neg h, List.orderedInsert,
        if_neg h, List.map_cons, orderedInsert_map f r a l]

theorem insertionSort_map {α β : Type} (f : α → β) (r : β → β → Prop)
    [DecidableRel r] [DecidableRel fun x y => r (f x) (f y)] :
    ∀ l : List α,
      List.insertionSort r (l.map f)
        = (List.insertionSort (fun x y => r (f x) (f y)) l).map f
  | [] => rfl
  | a :: l => by
    rw [List.map_cons, List.insertionSort, insertionSort_map f r l,
      orderedInsert_map f r a, List.insertionSort]

theorem map_getD_range {α : Type} (d : α) :
    ∀ l : List α, (List.range l.length).map (fun i => l.getD i d) = l
  | [] => rfl
  | a :: l => by
    rw [List.length_cons, List.range_succ_eq_map, List.map_cons, List.map_map]
    have h1 : ((fun i => (a :: l).getD i d) ∘ Nat.succ) = fun i => l.getD i d := by
      funext i
      simp [List.getD_cons_succ]
    rw [List.getD_cons_zero, h1, map_getD_range d l]

theorem getD_map_fd {α β : Type} (f : α → β) (l : List α) (d : α) (i : ℕ) :
    (l.map f).getD i (f d) = f (l.getD i d) := by
  rcases lt_or_ge i l.length with h | h
  · rw [List.getD_eq_getElem _ _ (by simpa using h), List.getD_eq_getElem _ _ h,
      List.getElem_map]
  · rw [List.getD_eq_default _ _ (by simpa using h), List.getD_eq_default _ _ h]

theorem keyOf_nil (idI : ℕ) : keyOf idI ([] : List ℚ) = 0 := by
  simp [keyOf, ratTruncInt, List.getD_eq_getElem?_getD]

theorem sortRowsById_eq (idI : ℕ) (rows : List (List ℚ)) :
    (argsort (rows.map (keyOf idI))).map (fun i => rows.getD i [])
      = sortRowsById idI rows := by
  have hrel : ∀ i : ℕ,
      (rows.map (keyOf idI)).getD i 0 = keyOf idI (rows.getD i []) := by
    intro i
    have h := getD_map_fd (keyOf idI) rows [] i
    rwa [keyOf_nil] at h
  have h1 : argsort (rows.map (keyOf idI))
      = List.insertionSort
          (fun i j : ℕ => keyOf idI (rows.getD i []) ≤ keyOf idI (rows.getD j []))
          (List.range rows.length) := by
    rw [argsort, List.length_map]
    exact insertionSort_congr (fun i j => by rw [hrel i, hrel j]) _
  rw [h1,
    ← insertionSort_map (fun i => rows.getD i [])
      (fun a b => keyOf idI a ≤ keyOf idI b),
    map_getD_range]
  rfl

theorem sortRowsById_getD (idI : ℕ) (rows : List (List ℚ)) {k : ℕ}
    (hk : k < rows.length) :
    (sortRowsById idI rows).getD k []
      = rows.getD ((argsort (rows.map (keyOf idI))).getD k 0) [] := by
  rw [← sortRowsById_eq]
  have hlen : k < (argsort (rows.map (keyOf idI))).length := by
    rw [argsort_length, List.length_map]
    exact hk
  rw [List.getD_eq_getElem _ _ (by simpa using hlen), List.getElem_map,
    List.getD_eq_getElem _ _ hlen]

/-! ## Extraction lemmas for the reader's column accesses -/

theorem idColumn_ok {rows : List (List ℚ)} {i : ℕ} {ids : List ℤ}
    (h : idColumn rows i = .ok ids) : ids = rows.map (keyOf i) := by
  rw [idColumn] at h
  cases rows with
  | nil => rw [colAt] at h; exact Except.noConfusion h
  | cons r rs =>
    rw [colAt] at h
    by_cases hc : (rs.all fun s => s.length = r.length) ∧ i < r.length
    · rw [if_pos hc] at h
      have h2 := (Except.ok.injEq _ _).mp h.symm
      rw [h2, List.map_map]
      rfl
    · rw [if_neg hc] at h
      exact Except.noConfusion h

theorem colTriple_ok {rows : List (List ℚ)} {ijk : ℕ × ℕ × ℕ} {xs : List V3}
    (h : colTriple rows ijk = .ok xs) : xs = rows.map (tripleAt ijk) := by
  cases rows with
  | nil => rw [colTriple] at h; exact Except.noConfusion h
  | cons r rs =>
    rw [colTriple] at h
    by_cases hc : (rs.all fun s => s.length = r.length) ∧
        ijk.1 < r.length ∧ ijk.2.1 < r.length ∧ ijk.2.2 < r.length
    · rw [if_pos hc] at h
      exact ((Except.ok.injEq _ _).mp h).symm
    · rw [if_neg hc] at h
      exact Except.noConfusion h

theorem applyXMap_nil (m : Option V3) (ijk : ℕ × ℕ × ℕ) :
    applyXMap m (tripleAt ijk ([] : List ℚ)) = ((0 : ℚ), (0 : ℚ), (0 : ℚ)) := by
  cases m with
  | none => simp [applyXMap, tripleAt, List.getD_eq_getElem?_getD]
  | some f => simp [applyXMap, tripleAt, vmul, List.getD_eq_getElem?_getD]

/-- Characterization of the first-frame buffer build: under a successful
`build_first`, the position buffer has one column per data line, the state
keeps the chosen transform and the header's box, and column `k` holds the
(transformed) coordinates of the `k`-th data line in ascending identifier
order. -/
theorem build_first_spec (hdr : Hdr) (sel : XSel) (vI : Option (ℕ × ℕ × ℕ))
    (rows : List (List ℚ)) (st : LoadedState)
    (hok : build_first hdr sel vI rows = .ok st)
    (hlen : rows.length = hdr.natoms.toNat) :
    st.xbuf.length = rows.length ∧
    st.xMap = sel.xMap ∧ st.box = hdr.box ∧ st.natoms = hdr.natoms ∧
    ∀ k, k < rows.length →
      st.xbuf.getD k (0, 0, 0)
        = applyXMap sel.xMap
            (tripleAt sel.xI
              ((sortRowsById (colIndex hdr.cols sId) rows).getD k [])) := by
  simp only [build_first] at hok
  cases hid : idColumn rows (colIndex hdr.cols sId) with
  | error e => rw [hid] at hok; exact Except.noConfusion hok
  | ok ids =>
  rw [hid] at hok
  cases hxs : colTriple rows sel.xI with
  | error e => rw [hxs] at hok; exact Except.noConfusion hok
  | ok xs =>
  rw [hxs] at hok
  have hids := idColumn_ok hid
  have hxse := colTriple_ok hxs
  subst hids
  subst hxse
  have hbuf : st.xbuf
      = scatter (List.replicate hdr.natoms.toNat ((0 : ℚ), (0 : ℚ), (0 : ℚ)))
          (invArgsort (rows.map (keyOf (colIndex hdr.cols sId))))
          ((rows.map (tripleAt sel.xI)).map (applyXMap sel.xMap))
      ∧ st.xMap = sel.xMap ∧ st.box = hdr.box ∧ st.natoms = hdr.natoms := by
    dsimp only at hok
    cases vI with
    | none =>
      cases hok
      exact ⟨rfl, rfl, rfl, rfl⟩
    | some vIdx =>
      dsimp only at hok
      cases hvs : colTriple rows vIdx with
      | error e => simp [hvs] at hok
      | ok vs =>
        rw [hvs] at hok
        dsimp only at hok
        cases hok
        exact ⟨rfl, rfl, rfl, rfl⟩
  obtain ⟨hxb, hxm, hbx, hna⟩ := hbuf
  have hidslen : (rows.map (keyOf (colIndex hdr.cols sId))).length = rows.length :=
    List.length_map _ _
  have hnn : hdr.natoms.toNat = (rows.map (keyOf (colIndex hdr.cols sId))).length := by
    rw [hidslen]
    exact hlen.symm
  refine ⟨?_, hxm, hbx, hna, ?_⟩
  · rw [hxb, length_scatter, hnn, List.length_replicate, hidslen]
  · intro k hk
    have hk' : k < (rows.map (keyOf (colIndex hdr.cols sId))).length := by
      rw [hidslen]; exact hk
    have hvalslen : ((rows.map (tripleAt sel.xI)).map (applyXMap sel.xMap)).length
        = (rows.map (keyOf (colIndex hdr.cols sId))).length := by
      simp
    have hmain := scatter_invArgsort_getD ((0 : ℚ), (0 : ℚ), (0 : ℚ))
      (rows.map (keyOf (colIndex hdr.cols sId)))
      ((rows.map (tripleAt sel.xI)).map (applyXMap sel.xMap)) hvalslen hk'
    rw [hxb, hnn, hmain, sortRowsById_getD _ _ hk]
    have hj : (argsort (rows.map (keyOf (colIndex hdr.cols sId)))).getD k 0
        < rows.length := by
      have := argsort_getD_lt (rows.map (keyOf (colIndex hdr.cols sId))) hk'
      rwa [hidslen] at this
    rw [List.map_map]
    have hjlen : (argsort (rows.map (keyOf (colIndex hdr.cols sId)))).getD k 0
        < (rows.map (applyXMap sel.xMap ∘ tripleAt sel.xI)).length := by
      simpa using hj
    rw [List.getD_eq_getElem _ _ hjlen, List.getElem_map,
      List.getD_eq_getElem _ _ hj]
    rfl

/-- Characterization of the subsequent-frame buffer update: under a
successful `build_next` (with distinct identifiers, all inside `1 .. N`),
the state keeps the captured transform, takes the new header's box, keeps
the atom count and columns, and the data of line `j` lands in buffer column
`id - 1`, transformed by the transform captured at open time. -/
theorem build_next_spec (st : LoadedState) (hdr : Hdr) (rows : List (List ℚ))
    (st' : LoadedState) (hok : build_next st hdr rows = .ok st')
    (hbuf : st.xbuf.length = rows.length)
    (hnd : (rows.map (keyOf st.idI)).Nodup)
    (hrange : ∀ q ∈ rows.map (keyOf st.idI), 1 ≤ q ∧ q ≤ (rows.length : ℤ)) :
    st'.xMap = st.xMap ∧ st'.box = hdr.box ∧ st'.natoms = st.natoms ∧
    st'.cols = st.cols ∧ st'.xbuf.length = rows.length ∧
    ∀ j, j < rows.length →
      st'.xbuf.getD (((rows.map (keyOf st.idI)).getD j 0) - 1).toNat (0, 0, 0)
        = applyXMap st.xMap (tripleAt st.xI (rows.getD j [])) := by
  simp only [build_next] at hok
  cases hid : idColumn rows st.idI with
  | error e => rw [hid] at hok; exact Except.noConfusion hok
  | ok ids =>
  rw [hid] at hok
  cases hxs : colTriple rows st.xI with
  | error e => simp [hxs] at hok
  | ok xs =>
  rw [hxs] at hok
  have hids := idColumn_ok hid
  have hxse := colTriple_ok hxs
  subst hids
  subst hxse
  dsimp only at hok
  have hxbuf : st'.xbuf = scatter st.xbuf
      ((rows.map (keyOf st.idI)).map (fun i => (i - 1).toNat))
      ((rows.map (tripleAt st.xI)).map (applyXMap st.xMap))
      ∧ st'.xMap = st.xMap ∧ st'.box = hdr.box ∧ st'.natoms = st.natoms
      ∧ st'.cols = st.cols := by
    cases hv : st.vI with
    | none =>
      rw [hv] at hok
      dsimp only at hok
      cases hok
      exact ⟨rfl, rfl, rfl, rfl, rfl⟩
    | some vIdx =>
      rw [hv] at hok
      dsimp only at hok
      cases hvs : colTriple rows vIdx with
      | error e => simp [hvs] at hok
      | ok vs =>
        rw [hvs] at hok
        dsimp only at hok
        cases hok
        exact ⟨rfl, rfl, rfl, rfl, rfl⟩
  obtain ⟨hxb, h1, h2, h3, h4⟩ := hxbuf
  have hIlen : ((rows.map (keyOf st.idI)).map (fun i => (i - 1).toNat)).length
      = rows.length := by simp
  have hInd : ((rows.map (keyOf st.idI)).map (fun i => (i - 1).toNat)).Nodup := by
    refine List.Nodup.map_on ?_ hnd
    intro x hx y hy hxy
    have hx1 := (hrange x hx).1
    have hy1 := (hrange y hy).1
    omega
  refine ⟨h1, h2, h3, h4, ?_, ?_⟩
  · rw [hxb, length_scatter, hbuf]
  · intro j hj
    have hjids : j < (rows.map (keyOf st.idI)).length := by simpa using hj
    have hIj : ((rows.map (keyOf st.idI)).map (fun i => (i - 1).toNat)).getD j 0
        = (((rows.map (keyOf st.idI)).getD j 0) - 1).toNat := by
      rw [List.getD_eq_getElem _ _ (by simpa using hj), List.getElem_map,
        List.getD_eq_getElem _ _ hjids]
    have hmem : (rows.map (keyOf st.idI)).getD j 0 ∈ rows.map (keyOf st.idI) := by
      rw [List.getD_eq_getElem _ _ hjids]
      exact List.getElem_mem _
    have hq := hrange _ hmem
    have hlt : ((rows.map (keyOf st.idI)).map (fun i => (i - 1).toNat)).getD j 0
        < st.xbuf.length := by
      rw [hIj, hbuf]
      omega
    have hvallen : j < ((rows.map (tripleAt st.xI)).map (applyXMap st.xMap)).length := by
      simpa using hj
    have hmain := getD_scatter_nodup ((0 : ℚ), (0 : ℚ), (0 : ℚ))
      ((rows.map (keyOf st.idI)).map (fun i => (i - 1).toNat))
      ((rows.map (tripleAt st.xI)).map (applyXMap st.xMap))
      st.xbuf j hInd (by rw [hIlen]; exact hj) hvallen hlt
    rw [hIj] at hmain
    rw [hxb, hmain, List.map_map,
      List.getD_eq_getElem _ _
        (show j < (rows.map (applyXMap st.xMap ∘ tripleAt st.xI)).length by simpa using hj),
      List.getElem_map, List.getD_eq_getElem _ _ hj]
    rfl

/-- When the identifier list is a permutation of `1 .. N`, the rank-based
destination of the first frame coincides with the `id - 1` destination of
the subsequent frames. -/
theorem invArgsort_consecutive (ids : List ℤ)
    (hperm : ids.Perm (consecutiveIds ids.length)) :
    ∀ j, j < ids.length →
      (invArgsort ids).getD j 0 = ((ids.getD j 0) - 1).toNat := by
  have hsort : (argsort ids).map (fun i => ids.getD i 0)
      = consecutiveIds ids.length := by
    have hm := insertionSort_map (fun i => ids.getD i 0)
      (fun a b : ℤ => a ≤ b) (List.range ids.length)
    rw [map_getD_range] at hm
    have hargs : argsort ids
        = List.insertionSort
            (fun x y =>
              (fun i => ids.getD i 0) x ≤ (fun i => ids.getD i 0) y)
            (List.range ids.length) := rfl
    rw [← hargs] at hm
    rw [← hm]
    apply List.eq_of_perm_of_sorted (r := fun a b : ℤ => a ≤ b)
    · exact (List.perm_insertionSort _ ids).trans hperm
    · exact List.sorted_insertionSort _ ids
    · refine List.Pairwise.map (fun i : ℕ => (i : ℤ) + 1) ?_
        (List.pairwise_lt_range ids.length)
      intro a b hab
      show (a : ℤ) + 1 ≤ (b : ℤ) + 1
      omega
  intro j hj
  obtain ⟨k, hk, he⟩ := argsort_surj ids hj
  have hb1 : k < (argsort ids).length := by rw [argsort_length]; exact hk
  have hklen : k < ((argsort ids).map (fun i => ids.getD i 0)).length := by
    rw [List.length_map]
    exact hb1
  have hb2 : (argsort ids)[k] < ids.length := by
    have h := argsort_getD_lt ids hk
    rwa [List.getD_eq_getElem _ _ hb1] at h
  have hval : ids.getD j 0 = (k : ℤ) + 1 := by
    rw [← he, List.getD_eq_getElem _ _ hb1, List.getD_eq_getElem _ _ hb2]
    have h3 := List.getElem_of_eq hsort hklen
    rw [List.getElem_map] at h3
    rw [List.getD_eq_getElem _ _ hb2] at h3
    simp only [consecutiveIds, List.getElem_map, List.getElem_range] at h3
    exact h3
  rw [← he, invArgsort_getD_argsort ids hk, he, hval]
  omega

/-! ## Claims -/

/-- C1: on a first frame whose `N` atom-data lines carry a scrambled set of
distinct atom identifiers, the reader builds the canonical permutation by
sorting the identifiers and mapping each to its rank
(`I[np.argsort(I)] = arange(len(I))`), so that the position buffer, column
by column, equals the data rows in ascending identifier order (with the
coordinate triple extracted and, in scaled mode, transformed) — regardless
of the order of the input lines. -/
theorem claim_C1 (hdr : Hdr) (sel : XSel) (vI : Option (ℕ × ℕ × ℕ))
    (rows : List (List ℚ)) (st : LoadedState)
    (hok : build_first hdr sel vI rows = .ok st)
    (hlen : rows.length = hdr.natoms.toNat)
    (hnd : (rows.map (keyOf (colIndex hdr.cols sId))).Nodup) :
    st.xbuf.length = rows.length ∧
    ∀ k, k < rows.length →
      st.xbuf.getD k (0, 0, 0)
        = applyXMap sel.xMap
            (tripleAt sel.xI
              ((sortRowsById (colIndex hdr.cols sId) rows).getD k [])) := by
  obtain ⟨h1, _, _, _, h2⟩ := build_first_spec hdr sel vI rows st hok hlen
  exact ⟨h1, h2⟩

theorem claim_C1_witness :
    (build_first wHdr1 wSel1 none wRows1 = .ok wSt1
      ∧ wRows1.length = wHdr1.natoms.toNat
      ∧ (wRows1.map (keyOf (colIndex wHdr1.cols sId))).Nodup)
    ∧ (wSt1.xbuf.length = wRows1.length
      ∧ ∀ k, k < wRows1.length →
          wSt1.xbuf.getD k (0, 0, 0)
            = applyXMap wSel1.xMap
                (tripleAt wSel1.xI
                  ((sortRowsById (colIndex wHdr1.cols sId) wRows1).getD k []))) :=
  ⟨⟨by decide, by decide, by decide⟩,
   claim_C1 wHdr1 wSel1 none wRows1 wSt1 (by decide) (by decide) (by decide)⟩

set_option maxRecDepth 8000 in
/-- C2: the claim is refuted by the program.  Because `_first_called` is
initialised to `False` (line 49) and never assigned afterwards in this
reader, the `I = ids - 1` destination rule of `_get_next` (line 156) is dead
code: every call to `next()` re-runs `_get_first`, which scatters each data
line to the *rank* of its identifier.  Running the reader on a trajectory
whose second frame carries identifiers `9, 1, 5` shows the divergence: the
emitted columns are the rows in ascending-identifier order, and in
particular the id-9 line lands in column 2 (its rank), not in column
`9 - 1 = 8` as the claimed rule would place it. -/
theorem claim_C2 :
    c2Run.map (fun p => p.2.x)
      = some [(100, 101, 102), (500, 501, 502), (900, 901, 902)]
    ∧ c2Run.map (fun p => p.2.x.getD 2 (0, 0, 0)) = some (900, 901, 902)
    ∧ ((9 : ℤ) - 1).toNat ≠ 2 := by
  refine ⟨?_, ?_, ?_⟩ <;> with_unfolding_all decide

theorem mem_of_all_in_cols {cols keys : List String}
    (h : all_in_cols cols keys = true) {k : String} (hk : k ∈ keys) :
    k ∈ cols := by
  have h2 := List.all_eq_true.mp h k hk
  simpa using h2

theorem getD_colIndex {cols : List String} {k : String} (h : k ∈ cols)
    (d : String) : cols.getD (colIndex cols k) d = k := by
  have hlt : List.indexOf k cols < cols.length := List.indexOf_lt_length.mpr h
  rw [colIndex, List.getD_eq_getElem _ _ hlt]
  exact List.getElem_indexOf hlt

/-- C3: the first frame chooses its coordinate columns by priority —
unwrapped `(xu,yu,zu)` over wrapped `(x,y,z)` over scaled `(xs,ys,zs)`,
each together with `id` — the chosen indices do point at the respective
columns, and when no triple is fully present alongside `id`, the column
choice (and with it the whole first-frame read) fails with the
missing-columns error rather than producing a frame. -/
theorem claim_C3 :
    (∀ (cols : List String) (box : Mat3 ℚ),
      all_in_cols cols [sId, sXu, sYu, sZu] = true →
      choose_x cols box
          = .ok ⟨(colIndex cols sXu, colIndex cols sYu, colIndex cols sZu), none⟩
        ∧ cols.getD (colIndex cols sXu) sId = sXu
        ∧ cols.getD (colIndex cols sYu) sId = sYu
        ∧ cols.getD (colIndex cols sZu) sId = sZu)
    ∧ (∀ (cols : List String) (box : Mat3 ℚ),
      all_in_cols cols [sId, sXu, sYu, sZu] = false →
      all_in_cols cols [sId, sX, sY, sZ] = true →
      choose_x cols box
          = .ok ⟨(colIndex cols sX, colIndex cols sY, colIndex cols sZ), none⟩
        ∧ cols.getD (colIndex cols sX) sId = sX
        ∧ cols.getD (colIndex cols sY) sId = sY
        ∧ cols.getD (colIndex cols sZ) sId = sZ)
    ∧ (∀ (cols : List String) (box : Mat3 ℚ),
      all_in_cols cols [sId, sXu, sYu, sZu] = false →
      all_in_cols cols [sId, sX, sY, sZ] = false →
      all_in_cols cols [sId, sXs, sYs, sZs] = true →
      choose_x cols box
          = .ok ⟨(colIndex cols sXs, colIndex cols sYs, colIndex cols sZs),
                 some (mdiag box)⟩
        ∧ cols.getD (colIndex cols sXs) sId = sXs
        ∧ cols.getD (colIndex cols sYs) sId = sYs
        ∧ cols.getD (colIndex cols sZs) sId = sZs)
    ∧ (∀ (cols : List String) (box : Mat3 ℚ),
      all_in_cols cols [sId, sXu, sYu, sZu] = false →
      all_in_cols cols [sId, sX, sY, sZ] = false →
      all_in_cols cols [sId, sXs, sYs, sZs] = false →
      choose_x cols box = .error .missingColumns)
    ∧ (∀ (lines : List TrjLine) (hdr : Hdr) (rest : List TrjLine),
      read_frame_header lines = .ok (hdr, rest) →
      choose_x hdr.cols hdr.box = .error .missingColumns →
      get_first lines = .error .missingColumns) := by
  refine ⟨?_, ?_, ?_, ?_, ?_⟩
  · intro cols box h
    refine ⟨by simp [choose_x, h], ?_, ?_, ?_⟩ <;>
      exact getD_colIndex (mem_of_all_in_cols h (by simp)) _
  · intro cols box h1 h2
    refine ⟨by simp [choose_x, h1, h2], ?_, ?_, ?_⟩ <;>
      exact getD_colIndex (mem_of_all_in_cols h2 (by simp)) _
  · intro cols box h1 h2 h3
    refine ⟨by simp [choose_x, h1, h2, h3], ?_, ?_, ?_⟩ <;>
      exact getD_colIndex (mem_of_all_in_cols h3 (by simp)) _
  · intro cols box h1 h2 h3
    simp [choose_x, h1, h2, h3]
  · intro lines hdr rest hh hcx
    rw [get_first, hh]
    dsimp only
    rw [hcx]

theorem claim_C3_witness :
    (all_in_cols wColsU [sId, sXu, sYu, sZu] = true
      ∧ (choose_x wColsU wBox
            = .ok ⟨(colIndex wColsU sXu, colIndex wColsU sYu,
                    colIndex wColsU sZu), none⟩
          ∧ wColsU.getD (colIndex wColsU sXu) sId = sXu
          ∧ wColsU.getD (colIndex wColsU sYu) sId = sYu
          ∧ wColsU.getD (colIndex wColsU sZu) sId = sZu))
    ∧ (all_in_cols wColsS [sId, sXu, sYu, sZu] = false
      ∧ all_in_cols wColsS [sId, sX, sY, sZ] = false
      ∧ all_in_cols wColsS [sId, sXs, sYs, sZs] = true
      ∧ choose_x wColsS wBox
          = .ok ⟨(colIndex wColsS sXs, colIndex wColsS sYs,
                  colIndex wColsS sZs), some (mdiag wBox)⟩)
    ∧ (all_in_cols wColsBad [sId, sXu, sYu, sZu] = false
      ∧ all_in_cols wColsBad [sId, sX, sY, sZ] = false
      ∧ all_in_cols wColsBad [sId, sXs, sYs, sZs] = false
      ∧ choose_x wColsBad wBox = .error .missingColumns)
    ∧ (read_frame_header wLines3 = .ok (wHdr3, [])
      ∧ choose_x wHdr3.cols wHdr3.box = .error .missingColumns
      ∧ get_first wLines3 = .error .missingColumns) :=
  ⟨⟨by decide, claim_C3.1 wColsU wBox (by decide)⟩,
   ⟨by decide, by decide, by decide,
    (claim_C3.2.2.1 wColsS wBox (by decide) (by decide) (by decide)).1⟩,
   ⟨by decide, by decide, by decide,
    claim_C3.2.2.2.1 wColsBad wBox (by decide) (by decide) (by decide)⟩,
   ⟨by with_unfolding_all decide, by decide,
    claim_C3.2.2.2.2 wLines3 wHdr3 [] (by with_unfolding_all decide) (by decide)⟩⟩

theorem build_first_keep (hdr : Hdr) (sel : XSel) (vI : Option (ℕ × ℕ × ℕ))
    (rows : List (List ℚ)) (st : LoadedState)
    (hok : build_first hdr sel vI rows = .ok st) :
    st.xMap = sel.xMap ∧ st.box = hdr.box ∧ st.natoms = hdr.natoms
      ∧ st.cols = hdr.cols := by
  simp only [build_first] at hok
  cases hid : idColumn rows (colIndex hdr.cols sId) with
  | error e => rw [hid] at hok; exact Except.noConfusion hok
  | ok ids =>
  rw [hid] at hok
  cases hxs : colTriple rows sel.xI with
  | error e => simp [hxs] at hok
  | ok xs =>
  rw [hxs] at hok
  dsimp only at hok
  cases vI with
  | none =>
    cases hok
    exact ⟨rfl, rfl, rfl, rfl⟩
  | some vIdx =>
    dsimp only at hok
    cases hvs : colTriple rows vIdx with
    | error e => simp [hvs] at hok
    | ok vs =>
      rw [hvs] at hok
      dsimp only at hok
      cases hok
      exact ⟨rfl, rfl, rfl, rfl⟩

theorem build_next_keep (st : LoadedState) (hdr : Hdr) (rows : List (List ℚ))
    (st' : LoadedState) (hok : build_next st hdr rows = .ok st') :
    st'.xMap = st.xMap ∧ st'.box = hdr.box ∧ st'.natoms = st.natoms
      ∧ st'.cols = st.cols := by
  simp only [build_next] at hok
  cases hid : idColumn rows st.idI with
  | error e => rw [hid] at hok; exact Except.noConfusion hok
  | ok ids =>
  rw [hid] at hok
  cases hxs : colTriple rows st.xI with
  | error e => simp [hxs] at hok
  | ok xs =>
  rw [hxs] at hok
  dsimp only at hok
  cases hv : st.vI with
  | none =>
    rw [hv] at hok
    dsimp only at hok
    cases hok
    exact ⟨rfl, rfl, rfl, rfl⟩
  | some vIdx =>
    rw [hv] at hok
    dsimp only at hok
    cases hvs : colTriple rows vIdx with
    | error e => simp [hvs] at hok
    | ok vs =>
      rw [hvs] at hok
      dsimp only at hok
      cases hok
      exact ⟨rfl, rfl, rfl, rfl⟩

/-- Control-flow of `next()` (lines 175–197): whenever `self._first_called`
is `False` — which, in this reader, is always, since it is initialised
`False` on line 49 and never assigned afterwards — a successful call routes
through `_get_first` and emits the state it builds; the flag is still
`False` in the returned reader, so the *next* call routes through
`_get_first` again. -/
theorem next_get_first (r : Reader) (f : Frame) (r' : Reader)
    (hfc : r.firstCalled = false) (hok : next r = .ok (f, r')) :
    ∃ st rest, get_first r.lines = .ok (st, rest)
      ∧ f = (emit r st rest).1 ∧ r' = (emit r st rest).2
      ∧ r'.firstCalled = false := by
  simp only [next] at hok
  by_cases ho : r.opened = true
  · rw [if_pos ho] at hok
    have hcond : ¬ (r.firstCalled = true) := by
      rw [hfc]
      exact Bool.false_ne_true
    rw [if_neg hcond] at hok
    cases hg : get_first r.lines with
    | error e =>
      rw [hg] at hok
      exact Except.noConfusion hok
    | ok pr =>
      obtain ⟨st, rest⟩ := pr
      rw [hg] at hok
      dsimp only at hok
      have hpair : emit r st rest = (f, r') := Except.ok.inj hok
      refine ⟨st, rest, rfl, ?_, ?_, ?_⟩
      · rw [hpair]
      · rw [hpair]
      · have hr' : r' = (emit r st rest).2 := by rw [hpair]
        rw [hr']
        simp only [emit]
        exact hfc
  · rw [if_neg ho] at hok
    exact Except.noConfusion hok

/-- C4: whenever the scaled triple `(xs,ys,zs)` is the one chosen,
`choose_x` captures as multiplier the diagonal of the box decoded from the
*current* frame header (`_x_factor = self._box.diagonal()`, line 120);
`build_first` post-multiplies every parsed fractional triple by that
captured factor (`applyXMap`) and stores the header's box in the state; and
because `_first_called` is never set, *every* call of `next()` — not only
the first — re-runs `_get_first`, so each frame's coordinates are multiplied
by that same frame's own box diagonal.  Concrete instance: a two-frame
scaled trajectory with one atom at `(1/2,1/2,1/2)`, frame-1 box diagonal
`(10,10,10)` and frame-2 box diagonal `(20,20,20)` yields positions
`(5,5,5)` and `(10,10,10)`, each equal to the fractional triple times the
emitted frame's own box diagonal. -/
theorem claim_C4 :
    (∀ (cols : List String) (box : Mat3 ℚ),
      all_in_cols cols [sId, sXu, sYu, sZu] = false →
      all_in_cols cols [sId, sX, sY, sZ] = false →
      all_in_cols cols [sId, sXs, sYs, sZs] = true →
      choose_x cols box
        = .ok ⟨(colIndex cols sXs, colIndex cols sYs, colIndex cols sZs),
               some (mdiag box)⟩)
    ∧ (∀ (hdr : Hdr) (sel : XSel) (vI : Option (ℕ × ℕ × ℕ))
        (rows : List (List ℚ)) (st : LoadedState),
        build_first hdr sel vI rows = .ok st →
        rows.length = hdr.natoms.toNat →
        st.xMap = sel.xMap ∧ st.box = hdr.box
          ∧ ∀ k, k < rows.length →
              st.xbuf.getD k (0, 0, 0)
                = applyXMap sel.xMap
                    (tripleAt sel.xI
                      ((sortRowsById (colIndex hdr.cols sId) rows).getD k [])))
    ∧ (∀ (r : Reader) (f : Frame) (r' : Reader),
        r.firstCalled = false → next r = .ok (f, r') →
        ∃ st rest, get_first r.lines = .ok (st, rest)
          ∧ f = (emit r st rest).1 ∧ r' = (emit r st rest).2
          ∧ r'.firstCalled = false)
    ∧ (c4Run.map (fun p => p.1.x.getD 0 (0, 0, 0)) = some (5, 5, 5)
      ∧ c4Run.map (fun p => vmul (1/2, 1/2, 1/2) (mdiag p.1.box))
          = some (5, 5, 5)
      ∧ c4Run.map (fun p => p.2.x.getD 0 (0, 0, 0)) = some (10, 10, 10)
      ∧ c4Run.map (fun p => vmul (1/2, 1/2, 1/2) (mdiag p.2.box))
          = some (10, 10, 10)) := by
  refine ⟨?_, ?_, ?_, ?_, ?_, ?_, ?_⟩
  · intro cols box h1 h2 h3
    simp [choose_x, h1, h2, h3]
  · intro hdr sel vI rows st hok hlen
    exact ⟨(build_first_spec hdr sel vI rows st hok hlen).2.1,
           (build_first_spec hdr sel vI rows st hok hlen).2.2.1,
           (build_first_spec hdr sel vI rows st hok hlen).2.2.2.2⟩
  · intro r f r' hfc hok
    exact next_get_first r f r' hfc hok
  · with_unfolding_all decide
  · with_unfolding_all decide
  · with_unfolding_all decide
  · with_unfolding_all decide

theorem claim_C4_witness :
    (all_in_cols wColsS [sId, sXu, sYu, sZu] = false
      ∧ all_in_cols wColsS [sId, sX, sY, sZ] = false
      ∧ all_in_cols wColsS [sId, sXs, sYs, sZs] = true
      ∧ choose_x wColsS wBox
          = .ok ⟨(colIndex wColsS sXs, colIndex wColsS sYs,
                  colIndex wColsS sZs), some (mdiag wBox)⟩)
    ∧ (build_first wHdr4 wSel4 none wRows4 = .ok wSt4
      ∧ wRows4.length = wHdr4.natoms.toNat
      ∧ (wSt4.xMap = wSel4.xMap ∧ wSt4.box = wHdr4.box
        ∧ ∀ k, k < wRows4.length →
            wSt4.xbuf.getD k (0, 0, 0)
              = applyXMap wSel4.xMap
                  (tripleAt wSel4.xI
                    ((sortRowsById (colIndex wHdr4.cols sId) wRows4).getD
                      k []))))
    ∧ ((openReader c4Lines 1 1).firstCalled = false
      ∧ ∃ f r', next (openReader c4Lines 1 1) = .ok (f, r')
          ∧ ∃ st rest,
              get_first (openReader c4Lines 1 1).lines = .ok (st, rest)
              ∧ f = (emit (openReader c4Lines 1 1) st rest).1
              ∧ r' = (emit (openReader c4Lines 1 1) st rest).2
              ∧ r'.firstCalled = false) := by
  refine ⟨⟨by decide, by decide, by decide,
    claim_C4.1 wColsS wBox (by decide) (by decide) (by decide)⟩,
    ⟨by with_unfolding_all decide, by decide,
     claim_C4.2.1 wHdr4 wSel4 none wRows4 wSt4
       (by with_unfolding_all decide) (by decide)⟩,
    rfl, ?_⟩
  have hiso : (next (openReader c4Lines 1 1)).isOk = true := by
    with_unfolding_all decide
  obtain ⟨p, hE⟩ : ∃ p, next (openReader c4Lines 1 1) = .ok p := by
    cases hE : next (openReader c4Lines 1 1) with
    | error e =>
      rw [hE] at hiso
      simp [Except.isOk, Except.toBool] at hiso
    | ok p => exact ⟨p, rfl⟩
  refine ⟨p.1, p.2, hE.trans (congrArg Except.ok Prod.mk.eta.symm), ?_⟩
  exact claim_C4.2.2.1 (openReader c4Lines 1 1) p.1 p.2 rfl
    (hE.trans (congrArg Except.ok Prod.mk.eta.symm))

/-- C5: three `BOX BOUNDS` rows each holding `(lo, hi, tilt)` produce the
matrix with diagonal `hi - lo` per axis and the tilt values at positions
`(1,0) = xy` (row 0's tilt), `(2,0) = xz` (row 1's tilt) and
`(2,1) = yz` (row 2's tilt); in particular the rows
`[(0,10,1),(0,10,2),(0,10,0)]` give diagonal `(10,10,10)` with
`(1,0)=1`, `(2,0)=2`, `(2,1)=0`. -/
theorem claim_C5 :
    (∀ l0 h0 t0 l1 h1 t1 l2 h2 t2 : ℚ,
      buildBox [[l0, h0, t0], [l1, h1, t1], [l2, h2, t2]]
        = .ok ⟨h0 - l0, 0, 0, t0, h1 - l1, 0, t1, t2, h2 - l2⟩)
    ∧ buildBox [[0, 10, 1], [0, 10, 2], [0, 10, 0]]
        = .ok ⟨10, 0, 0, 1, 10, 0, 2, 0, 10⟩ := by
  constructor
  · intro l0 h0 t0 l1 h1 t1 l2 h2 t2
    rfl
  · with_unfolding_all decide

/-- C6 counterexample: at `A = B = C = 1`, `alpha = beta = 90`,
`gamma = 60`, the box `_to_box` builds differs from the standard
crystallographic construction — the code's second row is `(cos 60°, 1, 0)`
whereas the standard second vector is `(cos 60°, sin 60°, 0)`. -/
theorem counterexample_C6 :
    Molfile.to_box 1 1 1 90 90 60 ≠ Molfile.standard_cell_box 1 1 1 90 90 60 := by
  intro h
  have h1 := congrArg Mat3.a11 h
  have hd : Molfile.deg2rad * 60 = Real.pi / 3 := by
    rw [Molfile.deg2rad]
    ring
  simp only [Molfile.to_box, Molfile.standard_cell_box] at h1
  rw [hd, Real.sin_pi_div_three] at h1
  have h2 : Real.sqrt 3 = 2 := by
    rw [one_mul] at h1
    linarith
  have h3 := Real.sq_sqrt (by norm_num : (0 : ℝ) ≤ 3)
  rw [h2] at h3
  norm_num at h3

/-- C6 amended: `_to_box` agrees with the standard construction only in the
first row (`(A, 0, 0)`) and in the orthorhombic case — for right angles both
give `diag(A, B, C)`; in general the code returns second row
`(B cos γ, B, 0)` (not `(B cos γ, B sin γ, 0)`) and third row
`(C cos β, C cos α, C)` (not the standard completion). -/
theorem claim_C6_amended :
    (∀ A B C alpha beta gamma : ℝ,
      (Molfile.to_box A B C alpha beta gamma).a00 = A
      ∧ (Molfile.to_box A B C alpha beta gamma).a01 = 0
      ∧ (Molfile.to_box A B C alpha beta gamma).a02 = 0
      ∧ (Molfile.to_box A B C alpha beta gamma).a11 = B
      ∧ (Molfile.standard_cell_box A B C alpha beta gamma).a00 = A
      ∧ (Molfile.standard_cell_box A B C alpha beta gamma).a11
          = B * Real.sin (Molfile.deg2rad * gamma))
    ∧ (∀ A B C : ℝ,
      Molfile.to_box A B C 90 90 90 = ⟨A, 0, 0, 0, B, 0, 0, 0, C⟩
      ∧ Molfile.standard_cell_box A B C 90 90 90
          = ⟨A, 0, 0, 0, B, 0, 0, 0, C⟩) := by
  constructor
  · intro A B C alpha beta gamma
    exact ⟨rfl, rfl, rfl, rfl, rfl, rfl⟩
  · intro A B C
    have hd : Molfile.deg2rad * 90 = Real.pi / 2 := by
      rw [Molfile.deg2rad]
      ring
    constructor
    · simp only [Molfile.to_box, hd, Real.cos_pi_div_two, mul_zero]
    · simp only [Molfile.standard_cell_box, hd, Real.cos_pi_div_two,
        Real.sin_pi_div_two]
      norm_num [Real.sqrt_one]

theorem get_next_inv (st : LoadedState) (lines : List TrjLine)
    (st1 : LoadedState) (rest : List TrjLine)
    (hok : get_next st lines = .ok (st1, rest)) :
    st1.natoms = st.natoms ∧ st1.cols = st.cols := by
  simp only [get_next] at hok
  cases hh : read_frame_header lines with
  | error e => rw [hh] at hok; exact Except.noConfusion hok
  | ok pr =>
  obtain ⟨hdr, rest0⟩ := pr
  rw [hh] at hok
  dsimp only at hok
  by_cases h1 : st.natoms = hdr.natoms
  · rw [if_pos h1] at hok
    by_cases h2 : st.cols = hdr.cols
    · rw [if_pos h2] at hok
      cases hr : readRows hdr.natoms.toNat rest0 with
      | error e => rw [hr] at hok; exact Except.noConfusion hok
      | ok pr2 =>
        obtain ⟨rows, rest1⟩ := pr2
        rw [hr] at hok
        dsimp only at hok
        cases hb : build_next st hdr rows with
        | error e => rw [hb] at hok; exact Except.noConfusion hok
        | ok st2 =>
          rw [hb] at hok
          dsimp only at hok
          cases hok
          have hk := build_next_keep st hdr rows _ hb
          exact ⟨hk.2.2.1, hk.2.2.2⟩
    · rw [if_neg h2] at hok
      exact Except.noConfusion hok
  · rw [if_neg h1] at hok
    exact Except.noConfusion hok

/-- C7: the claim is refuted by the program.  The consistency `assert`s
(lines 152–154) live in `_get_next`, but `_first_called` is initialised
`False` (line 49) and never assigned afterwards in this reader, so
`_get_next` — and with it both asserts — never executes: every call routes
through `_get_first`, which accepts whatever atom count the new header
declares.  This theorem evaluates the reader on a trajectory whose first
frame declares 2 atoms and whose second declares 1: the second frame is
returned (no `ConsistencyError`), and its `N` differs from frame 1's, so
`frame.atom_count` is not identical across returned frames. -/
theorem claim_C7 :
    c7Run.map (fun p => p.1.N) = some 2
    ∧ c7Run.map (fun p => p.2.N) = some 1
    ∧ (2 : ℤ) ≠ 1 := by
  refine ⟨?_, ?_, ?_⟩ <;> with_unfolding_all decide

theorem readHeaderAux_blank :
    ∀ (lines : List TrjLine) (acc : HdrAcc), (∀ l ∈ lines, l = TrjLine.blank) →
      readHeaderAux lines.length acc lines = .error .stopIteration
  | [], _, _ => rfl
  | l :: lines, acc, h => by
    have hl : l = TrjLine.blank := h l (List.mem_cons_self _ _)
    subst hl
    show readHeaderAux (lines.length + 1) acc (TrjLine.blank :: lines)
        = .error .stopIteration
    rw [readHeaderAux]
    exact readHeaderAux_blank lines acc fun x hx => h x (List.mem_cons_of_mem _ hx)

theorem readRows_nil : ∀ n : ℕ,
    readRows n ([] : List TrjLine) = .ok (List.replicate n [], [])
  | 0 => rfl
  | n + 1 => by
    rw [readRows]
    simp [readFloats, readRows_nil n, List.replicate_succ]

theorem readRows_map_nums :
    ∀ (dataRows : List (List ℚ)) (n : ℕ), dataRows.length ≤ n →
      readRows n (dataRows.map TrjLine.nums)
        = .ok (dataRows ++ List.replicate (n - dataRows.length) [], [])
  | [], n, _ => by simpa using readRows_nil n
  | r :: dataRows, n, h => by
    cases n with
    | zero => exact absurd h (by simp)
    | succ n0 =>
      rw [List.map_cons, readRows]
      have h0 : dataRows.length ≤ n0 := by
        simp only [List.length_cons] at h
        omega
      simp [readFloats, readRows_map_nums dataRows n0 h0, Nat.succ_sub_succ]

theorem colAt_append_replicate {m : ℕ} (hm : 1 ≤ m)
    (dataRows : List (List ℚ)) (i : ℕ) :
    colAt (dataRows ++ List.replicate m ([] : List ℚ)) i
      = .error .dataParse := by
  cases dataRows with
  | nil =>
    cases m with
    | zero => omega
    | succ m0 =>
      simp only [List.nil_append, List.replicate_succ, colAt]
      have hneg : ¬ (((List.replicate m0 ([] : List ℚ)).all
          fun s => s.length = List.length ([] : List ℚ))
            ∧ i < List.length ([] : List ℚ)) := by
        intro hcon
        simpa using hcon.2
      rw [if_neg hneg]
  | cons r rs =>
    simp only [List.cons_append, colAt]
    have hneg : ¬ ((((rs ++ List.replicate m ([] : List ℚ))).all
        fun s => s.length = r.length) ∧ i < r.length) := by
      intro hcon
      obtain ⟨hall, hi⟩ := hcon
      have hmem : ([] : List ℚ) ∈ rs ++ List.replicate m [] :=
        List.mem_append.mpr (Or.inr (List.mem_replicate.mpr ⟨by omega, rfl⟩))
      have hz := List.all_eq_true.mp hall [] hmem
      simp at hz
      omega
    rw [if_neg hneg]

/-- C8: a file that ends exactly after a complete frame — only blank lines
(or nothing) remain — yields clean exhaustion (`StopIteration`), not an
error; a file whose next frame header is complete but which ends before all
`N` atom-data lines yields the fatal data-read error (the spec's
`TruncationError`), distinguished from clean exhaustion.  Both behaviours
arise in `_get_first`, the path every `next()` call actually takes (the
never-set `_first_called` flag makes `_get_next` dead code): the header
loop raises `StopIteration` at end-of-stream, and a short data block makes
the numpy conversion of the ragged array fail after the header and the
coordinate-column choice succeeded. -/
theorem claim_C8 :
    (∀ r : Reader, r.opened = true → r.firstCalled = false →
      (∀ l ∈ r.lines, l = TrjLine.blank) →
      next r = .error .stopIteration)
    ∧ (∀ (r : Reader) (hdr : Hdr) (sel : XSel) (dataRows : List (List ℚ)),
      r.opened = true → r.firstCalled = false →
      read_frame_header r.lines = .ok (hdr, dataRows.map TrjLine.nums) →
      choose_x hdr.cols hdr.box = .ok sel →
      dataRows.length < hdr.natoms.toNat →
      next r = .error .dataParse) := by
  constructor
  · intro r ho hfc hb
    have hh : read_frame_header r.lines = .error .stopIteration := by
      rw [read_frame_header]
      exact readHeaderAux_blank r.lines _ hb
    simp only [next]
    rw [if_pos ho]
    have hcond : ¬ (r.firstCalled = true) := by
      rw [hfc]
      exact Bool.false_ne_true
    rw [if_neg hcond]
    rw [get_first, hh]
  · intro r hdr sel dataRows ho hfc hh hcx hk
    simp only [next]
    rw [if_pos ho]
    have hcond : ¬ (r.firstCalled = true) := by
      rw [hfc]
      exact Bool.false_ne_true
    rw [if_neg hcond]
    suffices hs : get_first r.lines = .error .dataParse by rw [hs]
    rw [get_first, hh]
    dsimp only
    rw [hcx]
    dsimp only
    rw [readRows_map_nums dataRows hdr.natoms.toNat (le_of_lt hk)]
    dsimp only
    suffices hb : build_first hdr sel (choose_v hdr.cols)
        (dataRows ++ List.replicate (hdr.natoms.toNat - dataRows.length) [])
          = .error .dataParse by rw [hb]
    simp only [build_first, idColumn]
    rw [colAt_append_replicate (by omega)]

theorem claim_C8_witness :
    (wR8a.opened = true ∧ wR8a.firstCalled = false
      ∧ (∀ l ∈ wR8a.lines, l = TrjLine.blank)
      ∧ next wR8a = .error .stopIteration)
    ∧ (wR8b.opened = true ∧ wR8b.firstCalled = false
      ∧ read_frame_header wR8b.lines = .ok (wHdr8b, wData8b.map TrjLine.nums)
      ∧ choose_x wHdr8b.cols wHdr8b.box = .ok wSel8
      ∧ wData8b.length < wHdr8b.natoms.toNat
      ∧ next wR8b = .error .dataParse) :=
  ⟨⟨rfl, rfl, by decide, claim_C8.1 wR8a rfl rfl (by decide)⟩,
   ⟨rfl, rfl, by with_unfolding_all decide, by decide, by decide,
    claim_C8.2 wR8b wHdr8b wSel8 wData8b rfl rfl (by with_unfolding_all decide)
      (by decide) (by decide)⟩⟩

/-- C9 counterexample: on a host where `libgmx` is present, the xtc probe
still answers `false` (its body is `return False`, the real check being
commented out), so `available()` is not "true iff the backend's runtime
prerequisites are present" for every backend. -/
theorem counterexample_C9 : Xtc.reader_available wEnv ≠ xtcPrereqs wEnv := by
  decide

/-- C9 amended: the LAMMPS text probe (no prerequisites) and the
plugin-backed probe (plugin directory located) answer exactly whether their
prerequisites are present; the library-call-backed xtc probe is disabled and
answers `false` regardless of whether `libgmx` is present. -/
theorem claim_C9_amended :
    (∀ e : HostEnv, Lammpstrj.reader_available e = lammpstrjPrereqs e)
    ∧ (∀ e : HostEnv, Molfile.reader_available e = molfilePrereqs e)
    ∧ (∀ e : HostEnv, Xtc.reader_available e = false) :=
  ⟨fun _ => rfl, fun _ => rfl, fun _ => rfl⟩

theorem hget_append {h : HeapModel.Heap} {r : ℕ}
    (l : List (List ℚ)) (hr : r < h.length) :
    HeapModel.hget (h ++ l) r = HeapModel.hget h r := by
  rw [HeapModel.hget, HeapModel.hget, List.getD_append h l [] r hr]

theorem hget_append_new (h : HeapModel.Heap) (v : List ℚ) :
    HeapModel.hget (h ++ [v]) h.length = v := by
  rw [HeapModel.hget, List.getD_append_right h [v] [] h.length (le_refl _)]
  simp

theorem hget_hset_ne {h : HeapModel.Heap} {r r' : ℕ}
    (hne : r' ≠ r) (v : List ℚ) :
    HeapModel.hget (HeapModel.hset h r' v) r = HeapModel.hget h r :=
  getD_set_ne h hne v []

theorem length_hset (h : HeapModel.Heap) (r : ℕ) (v : List ℚ) :
    (HeapModel.hset h r v).length = h.length := List.length_set h r v

/-- Closed form of `emitFrame` without velocities. -/
theorem emitFrame_none (h : HeapModel.Heap) (xf vf : ℚ)
    (br xr : ℕ) (hxr : xr < h.length) :
    HeapModel.emitFrame h xf vf br xr none
      = (h ++ [HeapModel.hget h br, HeapModel.scaleArr xf (HeapModel.hget h br),
               HeapModel.scaleArr xf (HeapModel.hget h xr)],
         ⟨h.length + 1, h.length + 2, none⟩) := by
  simp only [HeapModel.emitFrame, HeapModel.halloc]
  rw [hget_append_new h (HeapModel.hget h br)]
  rw [hget_append (l := [HeapModel.scaleArr xf (HeapModel.hget h br)])
      (by simpa using Nat.lt_succ_of_lt hxr)]
  rw [hget_append (l := [HeapModel.hget h br]) hxr]
  simp

/-- Closed form of `emitFrame` with velocities. -/
theorem emitFrame_some (h : HeapModel.Heap) (xf vf : ℚ)
    (br xr rv : ℕ) (hxr : xr < h.length) (hrv : rv < h.length) :
    HeapModel.emitFrame h xf vf br xr (some rv)
      = (h ++ [HeapModel.hget h br, HeapModel.scaleArr xf (HeapModel.hget h br),
               HeapModel.scaleArr xf (HeapModel.hget h xr),
               HeapModel.scaleArr vf (HeapModel.hget h rv)],
         ⟨h.length + 1, h.length + 2, some (h.length + 3)⟩) := by
  simp only [HeapModel.emitFrame, HeapModel.halloc]
  rw [hget_append_new h (HeapModel.hget h br)]
  rw [hget_append (l := [HeapModel.scaleArr xf (HeapModel.hget h br)])
      (by simpa using Nat.lt_succ_of_lt hxr)]
  rw [hget_append (l := [HeapModel.hget h br]) hxr]
  have hrv2 : rv < (h ++ [HeapModel.hget h br]
      ++ [HeapModel.scaleArr xf (HeapModel.hget h br)]).length := by
    simp only [List.length_append, List.length_cons, List.length_nil]
    omega
  have hrv1 : rv < (h ++ [HeapModel.hget h br]).length := by
    simp only [List.length_append, List.length_cons, List.length_nil]
    omega
  rw [hget_append (l := [HeapModel.scaleArr xf (HeapModel.hget h xr)]) hrv2]
  rw [hget_append (l := [HeapModel.scaleArr xf (HeapModel.hget h br)]) hrv1]
  rw [hget_append (l := [HeapModel.hget h br]) hrv]
  simp

theorem advanceBuffers_none (h : HeapModel.Heap) (xr : ℕ)
    (newbox nx nv : List ℚ) :
    HeapModel.advanceBuffers h xr none newbox nx nv
      = (HeapModel.hset (h ++ [newbox]) xr nx, h.length) := rfl

theorem advanceBuffers_some (h : HeapModel.Heap) (xr rv : ℕ)
    (newbox nx nv : List ℚ) :
    HeapModel.advanceBuffers h xr (some rv) newbox nx nv
      = (HeapModel.hset (HeapModel.hset (h ++ [newbox]) xr nx) rv nv,
         h.length) := rfl

theorem hget_calc (h : HeapModel.Heap) (l : List (List ℚ)) (k : ℕ) :
    HeapModel.hget (h ++ l) (h.length + k) = l.getD k [] := by
  rw [HeapModel.hget, List.getD_append_right h l [] _ (by omega)]
  have hk : h.length + k - h.length = k := by omega
  rw [hk]


/-- C10: in the allocation model of `next()` (lines 175–197), every emitted
frame holds freshly allocated arrays — the box is a scaled copy of the box
cell, the positions (and velocities) are scaled products of the internal
buffers; advancing the reader (which overwrites the internal buffers in
place and rebinds the box) leaves the previously returned frame's contents
untouched, the second frame's references are distinct from the first's,
and overwriting a later frame's arrays does not change an earlier frame's. -/
theorem claim_C10 (h : HeapModel.Heap) (xf vf : ℚ) (br xr : ℕ)
    (vr : Option ℕ) (h1 h2 h3 : HeapModel.Heap) (br2 : ℕ)
    (f1 f2 : HeapModel.FrameR) (newbox nx nv : List ℚ)
    (hbr : br < h.length) (hxr : xr < h.length)
    (hvr : ∀ rv, vr = some rv → rv < h.length)
    (e1 : HeapModel.emitFrame h xf vf br xr vr = (h1, f1))
    (e2 : HeapModel.advanceBuffers h1 xr vr newbox nx nv = (h2, br2))
    (e3 : HeapModel.emitFrame h2 xf vf br2 xr vr = (h3, f2)) :
    (HeapModel.hget h1 f1.box = HeapModel.scaleArr xf (HeapModel.hget h br)
      ∧ HeapModel.hget h1 f1.x = HeapModel.scaleArr xf (HeapModel.hget h xr)
      ∧ ∀ rv, vr = some rv →
          ∃ fv, f1.v = some fv
            ∧ HeapModel.hget h1 fv = HeapModel.scaleArr vf (HeapModel.hget h rv))
    ∧ (HeapModel.hget h3 f1.box = HeapModel.hget h1 f1.box
      ∧ HeapModel.hget h3 f1.x = HeapModel.hget h1 f1.x
      ∧ ∀ fv, f1.v = some fv → HeapModel.hget h3 fv = HeapModel.hget h1 fv)
    ∧ (f2.x ≠ f1.x ∧ f2.box ≠ f1.box
      ∧ (∀ w, HeapModel.hget (HeapModel.hset h3 f2.x w) f1.x
            = HeapModel.hget h3 f1.x)
      ∧ ∀ w, HeapModel.hget (HeapModel.hset h3 f2.box w) f1.box
            = HeapModel.hget h3 f1.box) := by
  cases vr with
  | none =>
    rw [emitFrame_none h xf vf br xr hxr] at e1
    injection e1 with eh ef
    subst eh
    subst ef
    rw [advanceBuffers_none] at e2
    injection e2 with eh2 ef2
    subst eh2
    subst ef2
    have hxr2 : xr < (HeapModel.hset
        ((h ++ [HeapModel.hget h br, HeapModel.scaleArr xf (HeapModel.hget h br),
                HeapModel.scaleArr xf (HeapModel.hget h xr)]) ++ [newbox])
        xr nx).length := by
      rw [length_hset]
      simp only [List.length_append, List.length_cons, List.length_nil]
      omega
    rw [emitFrame_none _ xf vf _ xr hxr2] at e3
    injection e3 with eh3 ef3
    subst eh3
    subst ef3
    set c0 := HeapModel.hget h br with hc0
    set c1 := HeapModel.scaleArr xf (HeapModel.hget h br) with hc1
    set c2 := HeapModel.scaleArr xf (HeapModel.hget h xr) with hc2
    have hL2 : (HeapModel.hset ((h ++ [c0, c1, c2]) ++ [newbox]) xr nx).length
        = h.length + 4 := by
      rw [length_hset]
      simp
    have g1 : HeapModel.hget (h ++ [c0, c1, c2]) (h.length + 1) = c1 := by
      rw [hget_calc]
      rfl
    have g2 : HeapModel.hget (h ++ [c0, c1, c2]) (h.length + 2) = c2 := by
      rw [hget_calc]
      rfl
    have hlt1 : h.length + 1 < (h ++ [c0, c1, c2]).length := by
      simp only [List.length_append, List.length_cons, List.length_nil]
      omega
    have hlt2 : h.length + 2 < (h ++ [c0, c1, c2]).length := by
      simp only [List.length_append, List.length_cons, List.length_nil]
      omega
    have peel : ∀ (tail : List (List ℚ)) (k : ℕ), k < (h ++ [c0, c1, c2]).length →
        k ≠ xr →
        HeapModel.hget
            (HeapModel.hset ((h ++ [c0, c1, c2]) ++ [newbox]) xr nx ++ tail) k
          = HeapModel.hget (h ++ [c0, c1, c2]) k := by
      intro tail k hk hkx
      rw [hget_append _ (by
        rw [length_hset]
        simpa using Nat.lt_succ_of_lt hk)]
      rw [hget_hset_ne (fun he => hkx he.symm), hget_append _ hk]
    dsimp only
    refine ⟨⟨g1, g2, ?_⟩, ⟨?_, ?_, ?_⟩, ⟨?_, ?_, ?_, ?_⟩⟩
    · intro rv hrv
      exact absurd hrv (by simp)
    · exact peel _ _ hlt1 (by omega)
    · exact peel _ _ hlt2 (by omega)
    · intro fv hfv
      exact absurd hfv (by simp)
    · show (HeapModel.hset ((h ++ [c0, c1, c2]) ++ [newbox]) xr nx).length + 2
          ≠ h.length + 2
      rw [hL2]
      omega
    · show (HeapModel.hset ((h ++ [c0, c1, c2]) ++ [newbox]) xr nx).length + 1
          ≠ h.length + 1
      rw [hL2]
      omega
    · intro w
      apply hget_hset_ne
      show (HeapModel.hset ((h ++ [c0, c1, c2]) ++ [newbox]) xr nx).length + 2
          ≠ h.length + 2
      rw [hL2]
      omega
    · intro w
      apply hget_hset_ne
      show (HeapModel.hset ((h ++ [c0, c1, c2]) ++ [newbox]) xr nx).length + 1
          ≠ h.length + 1
      rw [hL2]
      omega
  | some rv =>
    have hrv : rv < h.length := hvr rv rfl
    rw [emitFrame_some h xf vf br xr rv hxr hrv] at e1
    injection e1 with eh ef
    subst eh
    subst ef
    rw [advanceBuffers_some] at e2
    injection e2 with eh2 ef2
    subst eh2
    subst ef2
    have hxr2 : xr < (HeapModel.hset (HeapModel.hset
        ((h ++ [HeapModel.hget h br, HeapModel.scaleArr xf (HeapModel.hget h br),
                HeapModel.scaleArr xf (HeapModel.hget h xr),
                HeapModel.scaleArr vf (HeapModel.hget h rv)]) ++ [newbox])
        xr nx) rv nv).length := by
      rw [length_hset, length_hset]
      simp only [List.length_append, List.length_cons, List.length_nil]
      omega
    have hrv2 : rv < (HeapModel.hset (HeapModel.hset
        ((h ++ [HeapModel.hget h br, HeapModel.scaleArr xf (HeapModel.hget h br),
                HeapModel.scaleArr xf (HeapModel.hget h xr),
                HeapModel.scaleArr vf (HeapModel.hget h rv)]) ++ [newbox])
        xr nx) rv nv).length := by
      rw [length_hset, length_hset]
      simp only [List.length_append, List.length_cons, List.length_nil]
      omega
    rw [emitFrame_some _ xf vf _ xr rv hxr2 hrv2] at e3
    injection e3 with eh3 ef3
    subst eh3
    subst ef3
    set c0 := HeapModel.hget h br with hc0
    set c1 := HeapModel.scaleArr xf (HeapModel.hget h br) with hc1
    set c2 := HeapModel.scaleArr xf (HeapModel.hget h xr) with hc2
    set c3 := HeapModel.scaleArr vf (HeapModel.hget h rv) with hc3
    have hL2 : (HeapModel.hset (HeapModel.hset
        ((h ++ [c0, c1, c2, c3]) ++ [newbox]) xr nx) rv nv).length
          = h.length + 5 := by
      rw [length_hset, length_hset]
      simp
    have g1 : HeapModel.hget (h ++ [c0, c1, c2, c3]) (h.length + 1) = c1 := by
      rw [hget_calc]
      rfl
    have g2 : HeapModel.hget (h ++ [c0, c1, c2, c3]) (h.length + 2) = c2 := by
      rw [hget_calc]
      rfl
    have g3 : HeapModel.hget (h ++ [c0, c1, c2, c3]) (h.length + 3) = c3 := by
      rw [hget_calc]
      rfl
    have hlt1 : h.length + 1 < (h ++ [c0, c1, c2, c3]).length := by
      simp only [List.length_append, List.length_cons, List.length_nil]
      omega
    have hlt2 : h.length + 2 < (h ++ [c0, c1, c2, c3]).length := by
      simp only [List.length_append, List.length_cons, List.length_nil]
      omega
    have hlt3 : h.length + 3 < (h ++ [c0, c1, c2, c3]).length := by
      simp only [List.length_append, List.length_cons, List.length_nil]
      omega
    have peel : ∀ (tail : List (List ℚ)) (k : ℕ),
        k < (h ++ [c0, c1, c2, c3]).length → k ≠ xr → k ≠ rv →
        HeapModel.hget
            (HeapModel.hset (HeapModel.hset ((h ++ [c0, c1, c2, c3]) ++ [newbox])
              xr nx) rv nv ++ tail) k
          = HeapModel.hget (h ++ [c0, c1, c2, c3]) k := by
      intro tail k hk hkx hkr
      rw [hget_append _ (by
        rw [length_hset, length_hset]
        simpa using Nat.lt_succ_of_lt hk)]
      rw [hget_hset_ne (fun he => hkr he.symm),
        hget_hset_ne (fun he => hkx he.symm), hget_append _ hk]
    dsimp only
    refine ⟨⟨g1, g2, ?_⟩, ⟨?_, ?_, ?_⟩, ⟨?_, ?_, ?_, ?_⟩⟩
    · intro rv' hrv'
      injection hrv' with hh
      subst hh
      exact ⟨h.length + 3, rfl, g3⟩
    · exact peel _ _ hlt1 (by omega) (by omega)
    · exact peel _ _ hlt2 (by omega) (by omega)
    · intro fv hfv
      have hfv3 : h.length + 3 = fv := Option.some.inj hfv
      subst hfv3
      exact peel _ _ hlt3 (by omega) (by omega)
    · show (HeapModel.hset (HeapModel.hset ((h ++ [c0, c1, c2, c3]) ++ [newbox])
          xr nx) rv nv).length + 2 ≠ h.length + 2
      rw [hL2]
      omega
    · show (HeapModel.hset (HeapModel.hset ((h ++ [c0, c1, c2, c3]) ++ [newbox])
          xr nx) rv nv).length + 1 ≠ h.length + 1
      rw [hL2]
      omega
    · intro w
      apply hget_hset_ne
      show (HeapModel.hset (HeapModel.hset ((h ++ [c0, c1, c2, c3]) ++ [newbox])
          xr nx) rv nv).length + 2 ≠ h.length + 2
      rw [hL2]
      omega
    · intro w
      apply hget_hset_ne
      show (HeapModel.hset (HeapModel.hset ((h ++ [c0, c1, c2, c3]) ++ [newbox])
          xr nx) rv nv).length + 1 ≠ h.length + 1
      rw [hL2]
      omega

theorem claim_C10_witness :
    ((0 : ℕ) < wHeap.length ∧ (1 : ℕ) < wHeap.length
      ∧ HeapModel.emitFrame wHeap 2 3 0 1 (some 2) = (wH1, wF1)
      ∧ HeapModel.advanceBuffers wH1 1 (some 2) [7] [8] [9] = (wH2, 7)
      ∧ HeapModel.emitFrame wH2 2 3 7 1 (some 2) = (wH3, wF2))
    ∧ (HeapModel.hget wH1 wF1.box
        = HeapModel.scaleArr 2 (HeapModel.hget wHeap 0)
      ∧ HeapModel.hget wH3 wF1.x = HeapModel.hget wH1 wF1.x
      ∧ wF2.x ≠ wF1.x) :=
  ⟨⟨by decide, by decide, by with_unfolding_all decide,
    by with_unfolding_all decide, by with_unfolding_all decide⟩,
   (claim_C10 wHeap 2 3 0 1 (some 2) wH1 wH2 wH3 7 wF1 wF2 [7] [8] [9]
      (by decide) (by decide) (fun rv hv => by cases hv; decide)
      (by with_unfolding_all decide) (by with_unfolding_all decide)
      (by with_unfolding_all decide)).1.1,
   (claim_C10 wHeap 2 3 0 1 (some 2) wH1 wH2 wH3 7 wF1 wF2 [7] [8] [9]
      (by decide) (by decide) (fun rv hv => by cases hv; decide)
      (by with_unfolding_all decide) (by with_unfolding_all decide)
      (by with_unfolding_all decide)).2.1.2.1,
   (claim_C10 wHeap 2 3 0 1 (some 2) wH1 wH2 wH3 7 wF1 wF2 [7] [8] [9]
      (by decide) (by decide) (fun rv hv => by cases hv; decide)
      (by with_unfolding_all decide) (by with_unfolding_all decide)
      (by with_unfolding_all decide)).2.2.1⟩

end Dynsf
